import Mathlib

/-!
Shallow embedding of the CPU diff2 kernels of this repository
(src/src/acc/cpu/cpu_kernels/diff2.h) and a verification of the
specification's claims about them.

Modelling conventions: the C scalar type XFLOAT is modelled as a real
number; every caller-owned array is a total function from indices to
reals; a kernel takes the current contents of its output array and
returns the new contents.  The USE_SINCOS_TABLE path of diff2_coarse is
embedded, which is the path the specification describes.  Because the C
kernels only ever read their inputs and accumulate independent per-cell
increments with `+=`, the new output array is expressed as the old array
plus, at each cell, the sum of all increments the iteration targets at
that cell; this is exact for real-number addition.
-/

namespace CpuKernels

noncomputable section

/-- Modelled from the spec: the sincos lookup builders
(computeSincosLookupTable2D and computeSincosLookupTable3D are declared
in cpu_utils.h, which is not among the sources).  For translation t and
extent N the sine table entry at index k is sin(2 pi t k / N). -/
def sinTab (t : ℝ) (N : ℕ) (k : ℕ) : ℝ := Real.sin (2 * Real.pi * t * k / N)

/-- Modelled from the spec: cosine entry of the sincos lookup table,
cos(2 pi t k / N). -/
def cosTab (t : ℝ) (N : ℕ) (k : ℕ) : ℝ := Real.cos (2 * Real.pi * t * k / N)

/-- Consumer-side sign folding of the sine table for a possibly negative
coordinate, as in diff2.h (lines 210-226, 390-397, 550-568): a negative
coordinate reads the table at its absolute value and negates the sine. -/
def foldSin (t : ℝ) (N : ℕ) (k : ℤ) : ℝ :=
  if k < 0 then -sinTab t N (-k).toNat else sinTab t N k.toNat

/-- Cosine lookup with sign folding; the cosine is unchanged at a negative
coordinate. -/
def foldCos (t : ℝ) (N : ℕ) (k : ℤ) : ℝ :=
  if k < 0 then cosTab t N (-k).toNat else cosTab t N k.toNat

/-- The projector collaborator (AccProjectorKernel): image extents, the
radial cutoff maxR, and the three projection overloads, each returning the
sampled complex reference value as a pair (real, imag). -/
structure AccProjectorKernel where
  imgX : ℕ
  imgY : ℕ
  imgZ : ℕ
  maxR : ℕ
  project3Dmodel : ℤ → ℤ → ℤ → ℝ → ℝ → ℝ → ℝ → ℝ → ℝ → ℝ → ℝ → ℝ → ℝ × ℝ
  project3Dmodel2D : ℤ → ℤ → ℝ → ℝ → ℝ → ℝ → ℝ → ℝ → ℝ × ℝ
  project2Dmodel : ℤ → ℤ → ℝ → ℝ → ℝ → ℝ → ℝ × ℝ

/-- Sine and cosine of the combined 2D translation phase, built from the
folded lookups with the angle-addition identities (diff2.h lines 250-251).
The first component is ss, the second cc. -/
def shiftCC2D (tx ty : ℝ) (X Y : ℕ) (x y : ℤ) : ℝ × ℝ :=
  (foldSin tx X x * foldCos ty Y y + foldCos tx X x * foldSin ty Y y,
   foldCos tx X x * foldCos ty Y y - foldSin tx X x * foldSin ty Y y)

/-- 3D translation phase: the 2D pair combined with the z lookup
(diff2.h lines 240-244). -/
def shiftCC3D (tx ty tz : ℝ) (X Y Z : ℕ) (x y z : ℤ) : ℝ × ℝ :=
  ((shiftCC2D tx ty X Y x y).1 * foldCos tz Z z + (shiftCC2D tx ty X Y x y).2 * foldSin tz Z z,
   (shiftCC2D tx ty X Y x y).2 * foldCos tz Z z - (shiftCC2D tx ty X Y x y).1 * foldSin tz Z z)

/-- Application of a phase pair (ss, cc) to a complex sample (a, b):
real = cc*a - ss*b and imag = cc*b + ss*a (diff2.h lines 246-247,
253-254, 410-411). -/
def applyShift (sc : ℝ × ℝ) (a b : ℝ) : ℝ × ℝ :=
  (sc.2 * a - sc.1 * b, sc.2 * b + sc.1 * a)

/-- Row-level 2D phase used by the fine and CC kernels: the x coordinate is
a nonnegative table index read directly, the y coordinate is folded
(diff2.h lines 388-408). -/
def rowShift2D (tx ty : ℝ) (X Y : ℕ) (x : ℕ) (y : ℤ) : ℝ × ℝ :=
  (sinTab tx X x * foldCos ty Y y + cosTab tx X x * foldSin ty Y y,
   cosTab tx X x * foldCos ty Y y - sinTab tx X x * foldSin ty Y y)

/-- Row-level 3D phase (diff2.h lines 577-582). -/
def rowShift3D (tx ty tz : ℝ) (X Y Z : ℕ) (x : ℕ) (y z : ℤ) : ℝ × ℝ :=
  ((rowShift2D tx ty X Y x y).1 * foldCos tz Z z + (rowShift2D tx ty X Y x y).2 * foldSin tz Z z,
   (rowShift2D tx ty X Y x y).2 * foldCos tz Z z - (rowShift2D tx ty X Y x y).1 * foldSin tz Z z)

/-- Fourier coordinates of a linear pixel index, as precomputed by
diff2_coarse (diff2.h lines 96-110): row-major decomposition, then the
y (and for 3D data the z) index above maxR is wrapped to a negative
frequency by subtracting the extent. -/
def coarseCoords (DATA3D : Bool) (xSize ySize zSize maxR : ℕ) (pixel : ℕ) : ℤ × ℤ × ℤ :=
  if DATA3D then
    ((((pixel % (xSize * ySize)) % xSize : ℕ) : ℤ),
     (if (maxR : ℤ) < ((pixel % (xSize * ySize)) / xSize : ℕ) then
        (((pixel % (xSize * ySize)) / xSize : ℕ) : ℤ) - (ySize : ℤ)
      else (((pixel % (xSize * ySize)) / xSize : ℕ) : ℤ)),
     (if (maxR : ℤ) < (pixel / (xSize * ySize) : ℕ) then
        ((pixel / (xSize * ySize) : ℕ) : ℤ) - (zSize : ℤ)
      else ((pixel / (xSize * ySize) : ℕ) : ℤ)))
  else
    (((pixel % xSize : ℕ) : ℤ),
     (if (maxR : ℤ) < (pixel / xSize : ℕ) then
        ((pixel / xSize : ℕ) : ℤ) - (ySize : ℤ)
      else ((pixel / xSize : ℕ) : ℤ)),
     0)

/-- Number of block_sz sized pixel tiles (diff2.h lines 53-54). -/
def pass_num (block_sz image_size : ℕ) : ℕ :=
  if image_size % block_sz = 0 then image_size / block_sz else image_size / block_sz + 1

/-- Inputs of diff2_coarse (diff2.h lines 33-46). -/
structure CoarseIn where
  grid_size : ℕ
  g_eulers : ℕ → ℝ
  trans_x : ℕ → ℝ
  trans_y : ℕ → ℝ
  trans_z : ℕ → ℝ
  g_real : ℕ → ℝ
  g_imag : ℕ → ℝ
  projector : AccProjectorKernel
  g_corr : ℕ → ℝ
  translation_num : ℕ
  image_size : ℕ

/-- Reference value at pixel p under the e-th Euler matrix of a block
(diff2.h lines 127-129 and 143-179). -/
def coarseRef (REF3D DATA3D : Bool) (epb : ℕ) (A : CoarseIn) (block e p : ℕ) : ℝ × ℝ :=
  let c := coarseCoords DATA3D A.projector.imgX A.projector.imgY A.projector.imgZ
    A.projector.maxR p
  if DATA3D then
    A.projector.project3Dmodel c.1 c.2.1 c.2.2
      (A.g_eulers (block * epb * 9 + e * 9)) (A.g_eulers (block * epb * 9 + e * 9 + 1))
      (A.g_eulers (block * epb * 9 + e * 9 + 2)) (A.g_eulers (block * epb * 9 + e * 9 + 3))
      (A.g_eulers (block * epb * 9 + e * 9 + 4)) (A.g_eulers (block * epb * 9 + e * 9 + 5))
      (A.g_eulers (block * epb * 9 + e * 9 + 6)) (A.g_eulers (block * epb * 9 + e * 9 + 7))
      (A.g_eulers (block * epb * 9 + e * 9 + 8))
  else if REF3D then
    A.projector.project3Dmodel2D c.1 c.2.1
      (A.g_eulers (block * epb * 9 + e * 9)) (A.g_eulers (block * epb * 9 + e * 9 + 1))
      (A.g_eulers (block * epb * 9 + e * 9 + 3)) (A.g_eulers (block * epb * 9 + e * 9 + 4))
      (A.g_eulers (block * epb * 9 + e * 9 + 6)) (A.g_eulers (block * epb * 9 + e * 9 + 7))
  else
    A.projector.project2Dmodel c.1 c.2.1
      (A.g_eulers (block * epb * 9 + e * 9)) (A.g_eulers (block * epb * 9 + e * 9 + 1))
      (A.g_eulers (block * epb * 9 + e * 9 + 3)) (A.g_eulers (block * epb * 9 + e * 9 + 4))

/-- Per-pixel contribution of diff2_coarse for orientation e and
translation i: (diff_real^2 + diff_imag^2) * s_corr with
s_corr = corr * 0.5 (diff2.h lines 112-114 and 235-269). -/
def coarseContrib (R D : Bool) (epb : ℕ) (A : CoarseIn) (block e i p : ℕ) : ℝ :=
  let co := coarseCoords D A.projector.imgX A.projector.imgY A.projector.imgZ
    A.projector.maxR p
  let sc := if D then
      shiftCC3D (A.trans_x i) (A.trans_y i) (A.trans_z i)
        A.projector.imgX A.projector.imgY A.projector.imgZ co.1 co.2.1 co.2.2
    else
      shiftCC2D (A.trans_x i) (A.trans_y i) A.projector.imgX A.projector.imgY co.1 co.2.1
  let sh := applyShift sc (A.g_real p) (A.g_imag p)
  (((coarseRef R D epb A block e p).1 - sh.1) * ((coarseRef R D epb A block e p).1 - sh.1) +
   ((coarseRef R D epb A block e p).2 - sh.2) * ((coarseRef R D epb A block e p).2 - sh.2)) *
  (A.g_corr p * (1 / 2))

/-- One tile's accumulator diffi for a translation and orientation
(diff2.h lines 231-271): pixels past image_size contribute nothing. -/
def coarseDiffi (R D : Bool) (block_sz epb : ℕ) (A : CoarseIn) (block pass i e : ℕ) : ℝ :=
  ∑ tid ∈ Finset.range block_sz,
    if pass * block_sz + tid < A.image_size then
      coarseContrib R D epb A block e i (pass * block_sz + tid)
    else 0

/-- The block-local accumulator diff2s[i][e] after all tile passes
(diff2.h lines 134-275). -/
def coarseDelta (R D : Bool) (block_sz epb : ℕ) (A : CoarseIn) (block e i : ℕ) : ℝ :=
  ∑ pass ∈ Finset.range (pass_num block_sz A.image_size),
    coarseDiffi R D block_sz epb A block pass i e

/-- diff2_coarse (diff2.h lines 33-282): for each block the local
accumulators are added into the output at
block*eulers_per_block*translation_num + j*translation_num + i
(lines 277-280). -/
def diff2_coarse (R D : Bool) (block_sz epb : ℕ) (A : CoarseIn) (g_diff2s : ℕ → ℝ) :
    ℕ → ℝ :=
  fun c => g_diff2s c +
    ∑ block ∈ Finset.range A.grid_size, ∑ j ∈ Finset.range epb,
      ∑ i ∈ Finset.range A.translation_num,
        if c = block * epb * A.translation_num + j * A.translation_num + i then
          coarseDelta R D block_sz epb A block j i
        else 0

/-- Folded row coordinate of the fine and CC kernels (diff2.h lines
346-350): an index above maxR that is within maxR of the top wraps to a
negative frequency, all other indices are unchanged. -/
def rowFold (Size maxR : ℕ) (iy : ℕ) : ℤ :=
  if (maxR : ℤ) < (iy : ℤ) then
    (if (Size : ℤ) - (maxR : ℤ) ≤ (iy : ℤ) then (iy : ℤ) - (Size : ℤ) else (iy : ℤ))
  else (iy : ℤ)

/-- The x iteration bounds (xstart, xend) of a row (diff2.h lines 345-355):
in the polar-skip band (maxR < iy < Size - maxR) only the single pixel at
x = maxR is visited, otherwise the whole row 0..xSize. -/
def rowRange (Size maxR xSize : ℕ) (iy : ℕ) : ℕ × ℕ :=
  if (maxR : ℤ) < (iy : ℤ) ∧ (iy : ℤ) < (Size : ℤ) - (maxR : ℤ) then (maxR, maxR + 1)
  else (0, xSize)

/-- The x iteration bounds of a row in the 3D kernels (diff2.h lines
499-521): the z-derived bounds are the default, overridden to the single
pixel when iy lies in the y skip band. -/
def rowRange3D (ySize zSize maxR xSize : ℕ) (iz iy : ℕ) : ℕ × ℕ :=
  if (maxR : ℤ) < (iy : ℤ) ∧ (iy : ℤ) < (ySize : ℤ) - (maxR : ℤ) then (maxR, maxR + 1)
  else rowRange zSize maxR xSize iz

/-- Inputs shared by the four fine kernels (diff2.h lines 285-305,
432-452, 905-925, 1053-1074); the scalar biases sum_init and
exp_local_sqrtXi2 are passed separately. -/
structure FineIn where
  grid_size : ℕ
  g_eulers : ℕ → ℝ
  g_imgs_real : ℕ → ℝ
  g_imgs_imag : ℕ → ℝ
  g_trans_x : ℕ → ℝ
  g_trans_y : ℕ → ℝ
  g_trans_z : ℕ → ℝ
  projector : AccProjectorKernel
  g_corr_img : ℕ → ℝ
  image_size : ℕ
  orientation_num : ℕ
  translation_num : ℕ
  num_jobs : ℕ
  d_rot_idx : ℕ → ℕ
  d_trans_idx : ℕ → ℕ
  d_job_idx : ℕ → ℕ
  d_job_num : ℕ → ℕ

/-- Euler entry m of the single orientation of job bid
(diff2.h lines 325-328, 474-479, 956-963, 1114-1124). -/
def fineEuler (A : FineIn) (bid m : ℕ) : ℝ :=
  A.g_eulers (A.d_rot_idx (A.d_job_idx bid) * 9 + m)

/-- The x translation of the i-th translation of job bid, gathered from
the job table (diff2.h lines 331-335). -/
def fineTransX (A : FineIn) (bid i : ℕ) : ℝ :=
  A.g_trans_x (A.d_trans_idx (A.d_job_idx bid) + i)

/-- The y translation of the i-th translation of job bid. -/
def fineTransY (A : FineIn) (bid i : ℕ) : ℝ :=
  A.g_trans_y (A.d_trans_idx (A.d_job_idx bid) + i)

/-- The z translation of the i-th translation of job bid. -/
def fineTransZ (A : FineIn) (bid i : ℕ) : ℝ :=
  A.g_trans_z (A.d_trans_idx (A.d_job_idx bid) + i)

/-- Projected reference of a fine 2D job at row coordinate y, column x
(diff2.h lines 363-370): Euler entries 0,1,3,4 and for a 3D reference
also 6,7. -/
def fineRef2D (R : Bool) (A : FineIn) (bid : ℕ) (x : ℕ) (y : ℤ) : ℝ × ℝ :=
  if R then
    A.projector.project3Dmodel2D (x : ℤ) y (fineEuler A bid 0) (fineEuler A bid 1)
      (fineEuler A bid 3) (fineEuler A bid 4) (fineEuler A bid 6) (fineEuler A bid 7)
  else
    A.projector.project2Dmodel (x : ℤ) y (fineEuler A bid 0) (fineEuler A bid 1)
      (fineEuler A bid 3) (fineEuler A bid 4)

/-- Projected reference of a fine 3D job (diff2.h lines 529-532): all nine
Euler entries. -/
def fineRef3D (A : FineIn) (bid : ℕ) (x : ℕ) (y z : ℤ) : ℝ × ℝ :=
  A.projector.project3Dmodel (x : ℤ) y z (fineEuler A bid 0) (fineEuler A bid 1)
    (fineEuler A bid 2) (fineEuler A bid 3) (fineEuler A bid 4) (fineEuler A bid 5)
    (fineEuler A bid 6) (fineEuler A bid 7) (fineEuler A bid 8)

/-- One pixel's contribution to a diff2 fine 2D job sum (diff2.h lines
375-417): reference and signal are both scaled by
half_corr = sqrt(corr * 0.5), the signal is phase shifted, and the squared
complex difference is accumulated.  The linear pixel base of row iy is
iy * imgX (the `pixel += xSize` of line 421). -/
def fineTerm2D (R : Bool) (A : FineIn) (bid itrans iy x : ℕ) : ℝ :=
  let y := rowFold A.projector.imgY A.projector.maxR iy
  let pixel := iy * A.projector.imgX
  let half_corr := Real.sqrt (A.g_corr_img (pixel + x) * (1 / 2))
  let sh := applyShift
    (rowShift2D (fineTransX A bid itrans) (fineTransY A bid itrans)
      A.projector.imgX A.projector.imgY x y)
    (A.g_imgs_real (pixel + x) * half_corr) (A.g_imgs_imag (pixel + x) * half_corr)
  ((fineRef2D R A bid x y).1 * half_corr - sh.1) *
    ((fineRef2D R A bid x y).1 * half_corr - sh.1) +
  ((fineRef2D R A bid x y).2 * half_corr - sh.2) *
    ((fineRef2D R A bid x y).2 * half_corr - sh.2)

/-- One row's contribution to a diff2 fine 2D job sum: the x loop over
(xstart, xend) of diff2.h lines 406-417. -/
def fineRow2D (R : Bool) (A : FineIn) (bid itrans iy : ℕ) : ℝ :=
  ∑ x ∈ Finset.Ico (rowRange A.projector.imgY A.projector.maxR A.projector.imgX iy).1
      (rowRange A.projector.imgY A.projector.maxR A.projector.imgX iy).2,
    fineTerm2D R A bid itrans iy x

/-- The job accumulator s[itrans] of diff2_fine_2D after all rows
(diff2.h lines 341-422). -/
def fineS2D (R : Bool) (A : FineIn) (bid itrans : ℕ) : ℝ :=
  ∑ iy ∈ Finset.range A.projector.imgY, fineRow2D R A bid itrans iy

/-- diff2_fine_2D (diff2.h lines 285-430): for every job bid and every
i below job_num[bid], s[i] + sum_init is added into the output cell
job_idx[bid] + i (lines 424-428). -/
def diff2_fine_2D (R : Bool) (A : FineIn) (sum_init : ℝ) (g_diff2s : ℕ → ℝ) : ℕ → ℝ :=
  fun c => g_diff2s c +
    ∑ bid ∈ Finset.range A.grid_size, ∑ i ∈ Finset.range (A.d_job_num bid),
      if c = A.d_job_idx bid + i then fineS2D R A bid i + sum_init else 0

/-- One pixel's contribution to a diff2 fine 3D job sum (diff2.h lines
537-591).  The linear pixel base of row (iz, iy) is
(iz * imgY + iy) * imgX: line 595 advances `pixel` by xSize inside the
iy loop. -/
def fineTerm3D (A : FineIn) (bid itrans iz iy x : ℕ) : ℝ :=
  let z := rowFold A.projector.imgZ A.projector.maxR iz
  let y := rowFold A.projector.imgY A.projector.maxR iy
  let pixel := (iz * A.projector.imgY + iy) * A.projector.imgX
  let half_corr := Real.sqrt (A.g_corr_img (pixel + x) * (1 / 2))
  let sh := applyShift
    (rowShift3D (fineTransX A bid itrans) (fineTransY A bid itrans)
      (fineTransZ A bid itrans) A.projector.imgX A.projector.imgY A.projector.imgZ x y z)
    (A.g_imgs_real (pixel + x) * half_corr) (A.g_imgs_imag (pixel + x) * half_corr)
  ((fineRef3D A bid x y z).1 * half_corr - sh.1) *
    ((fineRef3D A bid x y z).1 * half_corr - sh.1) +
  ((fineRef3D A bid x y z).2 * half_corr - sh.2) *
    ((fineRef3D A bid x y z).2 * half_corr - sh.2)

/-- One row's contribution to a diff2 fine 3D job sum, over the combined
z- and y-derived x bounds (diff2.h lines 498-521, 577-591). -/
def fineRow3D (A : FineIn) (bid itrans iz iy : ℕ) : ℝ :=
  ∑ x ∈ Finset.Ico
      (rowRange3D A.projector.imgY A.projector.imgZ A.projector.maxR A.projector.imgX iz iy).1
      (rowRange3D A.projector.imgY A.projector.imgZ A.projector.maxR A.projector.imgX iz iy).2,
    fineTerm3D A bid itrans iz iy x

/-- The job accumulator s[itrans] of diff2_fine_3D after all planes and
rows (diff2.h lines 494-597). -/
def fineS3D (A : FineIn) (bid itrans : ℕ) : ℝ :=
  ∑ iz ∈ Finset.range A.projector.imgZ, ∑ iy ∈ Finset.range A.projector.imgY,
    fineRow3D A bid itrans iz iy

/-- diff2_fine_3D (diff2.h lines 432-605): s[i] + sum_init is added into
the output cell job_idx[bid] + i (lines 599-603). -/
def diff2_fine_3D (A : FineIn) (sum_init : ℝ) (g_diff2s : ℕ → ℝ) : ℕ → ℝ :=
  fun c => g_diff2s c +
    ∑ bid ∈ Finset.range A.grid_size, ∑ i ∈ Finset.range (A.d_job_num bid),
      if c = A.d_job_idx bid + i then fineS3D A bid i + sum_init else 0

/-- Inputs of the CC coarse kernels (diff2.h lines 612-625, 744-758);
the 2D variant has no trans_z argument and never reads that field. -/
structure CCCoarseIn where
  grid_size : ℕ
  g_eulers : ℕ → ℝ
  g_imgs_real : ℕ → ℝ
  g_imgs_imag : ℕ → ℝ
  g_trans_x : ℕ → ℝ
  g_trans_y : ℕ → ℝ
  g_trans_z : ℕ → ℝ
  projector : AccProjectorKernel
  g_corr_img : ℕ → ℝ
  trans_num : ℕ
  image_size : ℕ
  exp_local_sqrtXi2 : ℝ

/-- Projected reference of CC coarse 2D at orientation iorient
(diff2.h lines 646-652, 677-687). -/
def ccCoarseRef2D (R : Bool) (A : CCCoarseIn) (iorient x : ℕ) (y : ℤ) : ℝ × ℝ :=
  if R then
    A.projector.project3Dmodel2D (x : ℤ) y (A.g_eulers (iorient * 9))
      (A.g_eulers (iorient * 9 + 1)) (A.g_eulers (iorient * 9 + 3))
      (A.g_eulers (iorient * 9 + 4)) (A.g_eulers (iorient * 9 + 6))
      (A.g_eulers (iorient * 9 + 7))
  else
    A.projector.project2Dmodel (x : ℤ) y (A.g_eulers (iorient * 9))
      (A.g_eulers (iorient * 9 + 1)) (A.g_eulers (iorient * 9 + 3))
      (A.g_eulers (iorient * 9 + 4))

/-- Per-pixel weight term of CC coarse 2D (diff2.h line 716):
(ref.re * shifted.re + ref.im * shifted.im) * corr. -/
def ccCoarseW2D (R : Bool) (A : CCCoarseIn) (iorient itrans iy x : ℕ) : ℝ :=
  let y := rowFold A.projector.imgY A.projector.maxR iy
  let pixel := iy * A.projector.imgX
  let sh := applyShift
    (rowShift2D (A.g_trans_x itrans) (A.g_trans_y itrans)
      A.projector.imgX A.projector.imgY x y)
    (A.g_imgs_real (pixel + x)) (A.g_imgs_imag (pixel + x))
  ((ccCoarseRef2D R A iorient x y).1 * sh.1 + (ccCoarseRef2D R A iorient x y).2 * sh.2) *
    A.g_corr_img (pixel + x)

/-- Per-pixel norm term of CC coarse 2D (diff2.h line 717):
(ref.re^2 + ref.im^2) * corr; the added value does not depend on the
translation. -/
def ccCoarseN2D (R : Bool) (A : CCCoarseIn) (iorient iy x : ℕ) : ℝ :=
  let y := rowFold A.projector.imgY A.projector.maxR iy
  let pixel := iy * A.projector.imgX
  ((ccCoarseRef2D R A iorient x y).1 * (ccCoarseRef2D R A iorient x y).1 +
   (ccCoarseRef2D R A iorient x y).2 * (ccCoarseRef2D R A iorient x y).2) *
    A.g_corr_img (pixel + x)

/-- The per-x bucket s_weight[itrans][x] of CC coarse 2D after all rows
(diff2.h lines 654-722): row iy touches bucket x only when x lies in the
row's (xstart, xend). -/
def ccCoarseWBucket2D (R : Bool) (A : CCCoarseIn) (iorient itrans x : ℕ) : ℝ :=
  ∑ iy ∈ Finset.range A.projector.imgY,
    if x ∈ Finset.Ico (rowRange A.projector.imgY A.projector.maxR A.projector.imgX iy).1
        (rowRange A.projector.imgY A.projector.maxR A.projector.imgX iy).2 then
      ccCoarseW2D R A iorient itrans iy x
    else 0

/-- The per-x bucket s_norm[itrans][x] of CC coarse 2D. -/
def ccCoarseNBucket2D (R : Bool) (A : CCCoarseIn) (iorient x : ℕ) : ℝ :=
  ∑ iy ∈ Finset.range A.projector.imgY,
    if x ∈ Finset.Ico (rowRange A.projector.imgY A.projector.maxR A.projector.imgX iy).1
        (rowRange A.projector.imgY A.projector.maxR A.projector.imgX iy).2 then
      ccCoarseN2D R A iorient iy x
    else 0

/-- sum_weight of CC coarse 2D: the final reduction over the buckets
(diff2.h lines 724-731). -/
def ccCoarseSumW2D (R : Bool) (A : CCCoarseIn) (iorient itrans : ℕ) : ℝ :=
  ∑ x ∈ Finset.range A.projector.imgX, ccCoarseWBucket2D R A iorient itrans x

/-- sum_norm of CC coarse 2D. -/
def ccCoarseSumN2D (R : Bool) (A : CCCoarseIn) (iorient : ℕ) : ℝ :=
  ∑ x ∈ Finset.range A.projector.imgX, ccCoarseNBucket2D R A iorient x

/-- diff2_CC_coarse_2D (diff2.h lines 611-742): adds
-(sum_weight / sqrt(sum_norm)) into the output at
iorient * trans_num + itrans (lines 733-739). -/
def diff2_CC_coarse_2D (R : Bool) (A : CCCoarseIn) (g_diff2 : ℕ → ℝ) : ℕ → ℝ :=
  fun c => g_diff2 c +
    ∑ iorient ∈ Finset.range A.grid_size, ∑ itrans ∈ Finset.range A.trans_num,
      if c = iorient * A.trans_num + itrans then
        -(ccCoarseSumW2D R A iorient itrans / Real.sqrt (ccCoarseSumN2D R A iorient))
      else 0

/-- Projected reference of CC coarse 3D at orientation iorient
(diff2.h lines 782-791, 828-832). -/
def ccCoarseRef3D (A : CCCoarseIn) (iorient x : ℕ) (y z : ℤ) : ℝ × ℝ :=
  A.projector.project3Dmodel (x : ℤ) y z (A.g_eulers (iorient * 9))
    (A.g_eulers (iorient * 9 + 1)) (A.g_eulers (iorient * 9 + 2))
    (A.g_eulers (iorient * 9 + 3)) (A.g_eulers (iorient * 9 + 4))
    (A.g_eulers (iorient * 9 + 5)) (A.g_eulers (iorient * 9 + 6))
    (A.g_eulers (iorient * 9 + 7)) (A.g_eulers (iorient * 9 + 8))

/-- Per-pixel weight term of CC coarse 3D (diff2.h line 874).  The linear
pixel base of row (iz, iy) is (iz * imgY + iy) * imgX: line 879 advances
`pixel` inside the iy loop. -/
def ccCoarseW3D (A : CCCoarseIn) (iorient itrans iz iy x : ℕ) : ℝ :=
  let z := rowFold A.projector.imgZ A.projector.maxR iz
  let y := rowFold A.projector.imgY A.projector.maxR iy
  let pixel := (iz * A.projector.imgY + iy) * A.projector.imgX
  let sh := applyShift
    (rowShift3D (A.g_trans_x itrans) (A.g_trans_y itrans) (A.g_trans_z itrans)
      A.projector.imgX A.projector.imgY A.projector.imgZ x y z)
    (A.g_imgs_real (pixel + x)) (A.g_imgs_imag (pixel + x))
  ((ccCoarseRef3D A iorient x y z).1 * sh.1 + (ccCoarseRef3D A iorient x y z).2 * sh.2) *
    A.g_corr_img (pixel + x)

/-- Per-pixel norm term of CC coarse 3D (diff2.h line 875). -/
def ccCoarseN3D (A : CCCoarseIn) (iorient iz iy x : ℕ) : ℝ :=
  let z := rowFold A.projector.imgZ A.projector.maxR iz
  let y := rowFold A.projector.imgY A.projector.maxR iy
  let pixel := (iz * A.projector.imgY + iy) * A.projector.imgX
  ((ccCoarseRef3D A iorient x y z).1 * (ccCoarseRef3D A iorient x y z).1 +
   (ccCoarseRef3D A iorient x y z).2 * (ccCoarseRef3D A iorient x y z).2) *
    A.g_corr_img (pixel + x)

/-- The per-x bucket s_weight[itrans][x] of CC coarse 3D after all planes
and rows (diff2.h lines 793-881). -/
def ccCoarseWBucket3D (A : CCCoarseIn) (iorient itrans x : ℕ) : ℝ :=
  ∑ iz ∈ Finset.range A.projector.imgZ, ∑ iy ∈ Finset.range A.projector.imgY,
    if x ∈ Finset.Ico
        (rowRange3D A.projector.imgY A.projector.imgZ A.projector.maxR A.projector.imgX iz iy).1
        (rowRange3D A.projector.imgY A.projector.imgZ A.projector.maxR A.projector.imgX iz iy).2
      then ccCoarseW3D A iorient itrans iz iy x
    else 0

/-- The per-x bucket s_norm[itrans][x] of CC coarse 3D. -/
def ccCoarseNBucket3D (A : CCCoarseIn) (iorient x : ℕ) : ℝ :=
  ∑ iz ∈ Finset.range A.projector.imgZ, ∑ iy ∈ Finset.range A.projector.imgY,
    if x ∈ Finset.Ico
        (rowRange3D A.projector.imgY A.projector.imgZ A.projector.maxR A.projector.imgX iz iy).1
        (rowRange3D A.projector.imgY A.projector.imgZ A.projector.maxR A.projector.imgX iz iy).2
      then ccCoarseN3D A iorient iz iy x
    else 0

/-- sum_weight of CC coarse 3D (diff2.h lines 883-890). -/
def ccCoarseSumW3D (A : CCCoarseIn) (iorient itrans : ℕ) : ℝ :=
  ∑ x ∈ Finset.range A.projector.imgX, ccCoarseWBucket3D A iorient itrans x

/-- sum_norm of CC coarse 3D. -/
def ccCoarseSumN3D (A : CCCoarseIn) (iorient : ℕ) : ℝ :=
  ∑ x ∈ Finset.range A.projector.imgX, ccCoarseNBucket3D A iorient x

/-- diff2_CC_coarse_3D (diff2.h lines 744-901): adds
-(sum_weight / sqrt(sum_norm)) into the output at
iorient * trans_num + itrans (lines 892-898). -/
def diff2_CC_coarse_3D (A : CCCoarseIn) (g_diff2 : ℕ → ℝ) : ℕ → ℝ :=
  fun c => g_diff2 c +
    ∑ iorient ∈ Finset.range A.grid_size, ∑ itrans ∈ Finset.range A.trans_num,
      if c = iorient * A.trans_num + itrans then
        -(ccCoarseSumW3D A iorient itrans / Real.sqrt (ccCoarseSumN3D A iorient))
      else 0

/-- Per-pixel weight term of CC fine 2D (diff2.h line 1027); the row base
is iy * imgX (line 1032). -/
def ccFineW2D (R : Bool) (A : FineIn) (bid itrans iy x : ℕ) : ℝ :=
  let y := rowFold A.projector.imgY A.projector.maxR iy
  let pixel := iy * A.projector.imgX
  let sh := applyShift
    (rowShift2D (fineTransX A bid itrans) (fineTransY A bid itrans)
      A.projector.imgX A.projector.imgY x y)
    (A.g_imgs_real (pixel + x)) (A.g_imgs_imag (pixel + x))
  ((fineRef2D R A bid x y).1 * sh.1 + (fineRef2D R A bid x y).2 * sh.2) *
    A.g_corr_img (pixel + x)

/-- Per-pixel norm term of CC fine 2D (diff2.h line 1028). -/
def ccFineN2D (R : Bool) (A : FineIn) (bid iy x : ℕ) : ℝ :=
  let y := rowFold A.projector.imgY A.projector.maxR iy
  let pixel := iy * A.projector.imgX
  ((fineRef2D R A bid x y).1 * (fineRef2D R A bid x y).1 +
   (fineRef2D R A bid x y).2 * (fineRef2D R A bid x y).2) *
    A.g_corr_img (pixel + x)

/-- The per-x bucket s[itrans][x] of CC fine 2D after all rows
(diff2.h lines 965-1033). -/
def ccFineWBucket2D (R : Bool) (A : FineIn) (bid itrans x : ℕ) : ℝ :=
  ∑ iy ∈ Finset.range A.projector.imgY,
    if x ∈ Finset.Ico (rowRange A.projector.imgY A.projector.maxR A.projector.imgX iy).1
        (rowRange A.projector.imgY A.projector.maxR A.projector.imgX iy).2 then
      ccFineW2D R A bid itrans iy x
    else 0

/-- The per-x bucket s_cc[itrans][x] of CC fine 2D. -/
def ccFineNBucket2D (R : Bool) (A : FineIn) (bid x : ℕ) : ℝ :=
  ∑ iy ∈ Finset.range A.projector.imgY,
    if x ∈ Finset.Ico (rowRange A.projector.imgY A.projector.maxR A.projector.imgX iy).1
        (rowRange A.projector.imgY A.projector.maxR A.projector.imgX iy).2 then
      ccFineN2D R A bid iy x
    else 0

/-- sum1 of CC fine 2D: the reduction over the buckets (diff2.h lines
1035-1041). -/
def ccFineSum2D (R : Bool) (A : FineIn) (bid itrans : ℕ) : ℝ :=
  ∑ x ∈ Finset.range A.projector.imgX, ccFineWBucket2D R A bid itrans x

/-- sum2 of CC fine 2D. -/
def ccFineNorm2D (R : Bool) (A : FineIn) (bid : ℕ) : ℝ :=
  ∑ x ∈ Finset.range A.projector.imgX, ccFineNBucket2D R A bid x

/-- diff2_CC_fine_2D (diff2.h lines 904-1051): adds -sum1/sqrt(sum2) into
the output at job_idx[bid] + itrans (lines 1043-1048); the sum_init and
exp_local_sqrtXi2 arguments are never read. -/
def diff2_CC_fine_2D (R : Bool) (A : FineIn) (sum_init exp_local_sqrtXi2 : ℝ)
    (g_diff2s : ℕ → ℝ) : ℕ → ℝ :=
  fun c => g_diff2s c +
    ∑ bid ∈ Finset.range A.grid_size, ∑ i ∈ Finset.range (A.d_job_num bid),
      if c = A.d_job_idx bid + i then
        -(ccFineSum2D R A bid i / Real.sqrt (ccFineNorm2D R A bid))
      else 0

/-- Per-pixel weight term of CC fine 3D (diff2.h line 1203).  NOTE the
linear pixel base: in the source, `pixel += xSize` (line 1209) sits after
the iy loop closes (line 1207) but inside the iz loop, so every row of a
z-plane reads the image and the weights at the same base iz * imgX. -/
def ccFineW3D (A : FineIn) (bid itrans iz iy x : ℕ) : ℝ :=
  let z := rowFold A.projector.imgZ A.projector.maxR iz
  let y := rowFold A.projector.imgY A.projector.maxR iy
  let pixel := iz * A.projector.imgX
  let sh := applyShift
    (rowShift3D (fineTransX A bid itrans) (fineTransY A bid itrans)
      (fineTransZ A bid itrans) A.projector.imgX A.projector.imgY A.projector.imgZ x y z)
    (A.g_imgs_real (pixel + x)) (A.g_imgs_imag (pixel + x))
  ((fineRef3D A bid x y z).1 * sh.1 + (fineRef3D A bid x y z).2 * sh.2) *
    A.g_corr_img (pixel + x)

/-- Per-pixel norm term of CC fine 3D (diff2.h line 1204), with the same
z-plane pixel base as ccFineW3D. -/
def ccFineN3D (A : FineIn) (bid iz iy x : ℕ) : ℝ :=
  let z := rowFold A.projector.imgZ A.projector.maxR iz
  let y := rowFold A.projector.imgY A.projector.maxR iy
  let pixel := iz * A.projector.imgX
  ((fineRef3D A bid x y z).1 * (fineRef3D A bid x y z).1 +
   (fineRef3D A bid x y z).2 * (fineRef3D A bid x y z).2) *
    A.g_corr_img (pixel + x)

/-- The per-x bucket s[itrans][x] of CC fine 3D after all planes and rows
(diff2.h lines 1110-1210). -/
def ccFineWBucket3D (A : FineIn) (bid itrans x : ℕ) : ℝ :=
  ∑ iz ∈ Finset.range A.projector.imgZ, ∑ iy ∈ Finset.range A.projector.imgY,
    if x ∈ Finset.Ico
        (rowRange3D A.projector.imgY A.projector.imgZ A.projector.maxR A.projector.imgX iz iy).1
        (rowRange3D A.projector.imgY A.projector.imgZ A.projector.maxR A.projector.imgX iz iy).2
      then ccFineW3D A bid itrans iz iy x
    else 0

/-- The per-x bucket s_cc[itrans][x] of CC fine 3D. -/
def ccFineNBucket3D (A : FineIn) (bid x : ℕ) : ℝ :=
  ∑ iz ∈ Finset.range A.projector.imgZ, ∑ iy ∈ Finset.range A.projector.imgY,
    if x ∈ Finset.Ico
        (rowRange3D A.projector.imgY A.projector.imgZ A.projector.maxR A.projector.imgX iz iy).1
        (rowRange3D A.projector.imgY A.projector.imgZ A.projector.maxR A.projector.imgX iz iy).2
      then ccFineN3D A bid iz iy x
    else 0

/-- sum1 of CC fine 3D (diff2.h lines 1212-1218). -/
def ccFineSum3D (A : FineIn) (bid itrans : ℕ) : ℝ :=
  ∑ x ∈ Finset.range A.projector.imgX, ccFineWBucket3D A bid itrans x

/-- sum2 of CC fine 3D. -/
def ccFineNorm3D (A : FineIn) (bid : ℕ) : ℝ :=
  ∑ x ∈ Finset.range A.projector.imgX, ccFineNBucket3D A bid x

/-- diff2_CC_fine_3D (diff2.h lines 1053-1229): adds -sum1/sqrt(sum2) into
the output at job_idx[bid] + itrans (lines 1220-1225); the sum_init and
exp_local_sqrtXi2 arguments are never read. -/
def diff2_CC_fine_3D (A : FineIn) (sum_init exp_local_sqrtXi2 : ℝ)
    (g_diff2s : ℕ → ℝ) : ℕ → ℝ :=
  fun c => g_diff2s c +
    ∑ bid ∈ Finset.range A.grid_size, ∑ i ∈ Finset.range (A.d_job_num bid),
      if c = A.d_job_idx bid + i then
        -(ccFineSum3D A bid i / Real.sqrt (ccFineNorm3D A bid))
      else 0

/-- Follows the spec (section 4.7, "Mirrors Diff2 Fine ... row-by-row"):
the weight term CC fine 3D would accumulate if, as claimed, row (iz, iy)
read the image and the weights at the linear base (iz * imgY + iy) * imgX
exactly as diff2_fine_3D does.  Used only to compare the source kernel
against the claimed addressing. -/
def ccFineW3Drow (A : FineIn) (bid itrans iz iy x : ℕ) : ℝ :=
  let z := rowFold A.projector.imgZ A.projector.maxR iz
  let y := rowFold A.projector.imgY A.projector.maxR iy
  let pixel := (iz * A.projector.imgY + iy) * A.projector.imgX
  let sh := applyShift
    (rowShift3D (fineTransX A bid itrans) (fineTransY A bid itrans)
      (fineTransZ A bid itrans) A.projector.imgX A.projector.imgY A.projector.imgZ x y z)
    (A.g_imgs_real (pixel + x)) (A.g_imgs_imag (pixel + x))
  ((fineRef3D A bid x y z).1 * sh.1 + (fineRef3D A bid x y z).2 * sh.2) *
    A.g_corr_img (pixel + x)

/-- Follows the spec: the norm term under the claimed row-by-row
addressing. -/
def ccFineN3Drow (A : FineIn) (bid iz iy x : ℕ) : ℝ :=
  let z := rowFold A.projector.imgZ A.projector.maxR iz
  let y := rowFold A.projector.imgY A.projector.maxR iy
  let pixel := (iz * A.projector.imgY + iy) * A.projector.imgX
  ((fineRef3D A bid x y z).1 * (fineRef3D A bid x y z).1 +
   (fineRef3D A bid x y z).2 * (fineRef3D A bid x y z).2) *
    A.g_corr_img (pixel + x)

/-- Follows the spec: sum1 under the claimed row-by-row addressing. -/
def ccFineSum3Drow (A : FineIn) (bid itrans : ℕ) : ℝ :=
  ∑ x ∈ Finset.range A.projector.imgX,
    ∑ iz ∈ Finset.range A.projector.imgZ, ∑ iy ∈ Finset.range A.projector.imgY,
      if x ∈ Finset.Ico
          (rowRange3D A.projector.imgY A.projector.imgZ A.projector.maxR A.projector.imgX iz iy).1
          (rowRange3D A.projector.imgY A.projector.imgZ A.projector.maxR A.projector.imgX iz iy).2
        then ccFineW3Drow A bid itrans iz iy x
      else 0

/-- Follows the spec: sum2 under the claimed row-by-row addressing. -/
def ccFineNorm3Drow (A : FineIn) (bid : ℕ) : ℝ :=
  ∑ x ∈ Finset.range A.projector.imgX,
    ∑ iz ∈ Finset.range A.projector.imgZ, ∑ iy ∈ Finset.range A.projector.imgY,
      if x ∈ Finset.Ico
          (rowRange3D A.projector.imgY A.projector.imgZ A.projector.maxR A.projector.imgX iz iy).1
          (rowRange3D A.projector.imgY A.projector.imgZ A.projector.maxR A.projector.imgX iz iy).2
        then ccFineN3Drow A bid iz iy x
      else 0

/-- Follows the spec: the CC fine 3D kernel with the claimed row-by-row
pixel addressing of diff2_fine_3D. -/
def diff2_CC_fine_3D_rowAddressed (A : FineIn) (sum_init exp_local_sqrtXi2 : ℝ)
    (g_diff2s : ℕ → ℝ) : ℕ → ℝ :=
  fun c => g_diff2s c +
    ∑ bid ∈ Finset.range A.grid_size, ∑ i ∈ Finset.range (A.d_job_num bid),
      if c = A.d_job_idx bid + i then
        -(ccFineSum3Drow A bid i / Real.sqrt (ccFineNorm3Drow A bid))
      else 0

/-! Helper lemmas. -/

/-- Folded sine lookup equals the sine of the signed angle. -/
lemma foldSin_eq (t : ℝ) (N : ℕ) (k : ℤ) :
    foldSin t N k = Real.sin (2 * Real.pi * t * (k : ℝ) / N) := by
  unfold foldSin sinTab
  by_cases h : k < 0
  · rw [if_pos h]
    have hk : (((-k).toNat : ℕ) : ℝ) = -(k : ℝ) := by
      have h2 := Int.toNat_of_nonneg (by omega : (0 : ℤ) ≤ -k)
      exact_mod_cast congrArg (fun n : ℤ => (n : ℝ)) h2
    rw [hk]
    rw [show 2 * Real.pi * t * -(k : ℝ) / N = -(2 * Real.pi * t * (k : ℝ) / N) by ring]
    rw [Real.sin_neg]
    ring
  · rw [if_neg h]
    have hk : ((k.toNat : ℕ) : ℝ) = (k : ℝ) := by
      have h2 := Int.toNat_of_nonneg (by omega : (0 : ℤ) ≤ k)
      exact_mod_cast congrArg (fun n : ℤ => (n : ℝ)) h2
    rw [hk]

/-- Folded cosine lookup equals the cosine of the signed angle. -/
lemma foldCos_eq (t : ℝ) (N : ℕ) (k : ℤ) :
    foldCos t N k = Real.cos (2 * Real.pi * t * (k : ℝ) / N) := by
  unfold foldCos cosTab
  by_cases h : k < 0
  · rw [if_pos h]
    have hk : (((-k).toNat : ℕ) : ℝ) = -(k : ℝ) := by
      have h2 := Int.toNat_of_nonneg (by omega : (0 : ℤ) ≤ -k)
      exact_mod_cast congrArg (fun n : ℤ => (n : ℝ)) h2
    rw [hk]
    rw [show 2 * Real.pi * t * -(k : ℝ) / N = -(2 * Real.pi * t * (k : ℝ) / N) by ring]
    rw [Real.cos_neg]
  · rw [if_neg h]
    have hk : ((k.toNat : ℕ) : ℝ) = (k : ℝ) := by
      have h2 := Int.toNat_of_nonneg (by omega : (0 : ℤ) ≤ k)
      exact_mod_cast congrArg (fun n : ℤ => (n : ℝ)) h2
    rw [hk]

/-- At translation zero every folded sine entry is zero. -/
lemma foldSin_zero (N : ℕ) (k : ℤ) : foldSin 0 N k = 0 := by
  simp [foldSin, sinTab]

/-- At translation zero every folded cosine entry is one. -/
lemma foldCos_zero (N : ℕ) (k : ℤ) : foldCos 0 N k = 1 := by
  simp [foldCos, cosTab]

/-- At translation zero the 2D phase is the identity phase (0, 1). -/
lemma shiftCC2D_zero (X Y : ℕ) (x y : ℤ) : shiftCC2D 0 0 X Y x y = (0, 1) := by
  simp [shiftCC2D, foldSin_zero, foldCos_zero]

/-- At translation zero the 3D phase is the identity phase (0, 1). -/
lemma shiftCC3D_zero (X Y Z : ℕ) (x y z : ℤ) : shiftCC3D 0 0 0 X Y Z x y z = (0, 1) := by
  simp [shiftCC3D, shiftCC2D_zero, foldSin_zero, foldCos_zero]

/-- The identity phase leaves the sample unchanged. -/
lemma applyShift_id (a b : ℝ) : applyShift (0, 1) a b = (a, b) := by
  simp [applyShift]

/-- Splitting a sum over an initial segment: range (a + b) decomposes into
range a and the shifted range b. -/
lemma sum_range_add_split (g : ℕ → ℝ) (a b : ℕ) :
    ∑ k ∈ Finset.range (a + b), g k =
      (∑ k ∈ Finset.range a, g k) + ∑ j ∈ Finset.range b, g (a + j) := by
  rw [Finset.range_eq_Ico, ← Finset.sum_Ico_consecutive g (Nat.zero_le a) (Nat.le_add_right a b),
    ← Finset.range_eq_Ico]
  congr 1
  rw [Finset.sum_Ico_eq_sum_range]
  simp

/-- Tiled iteration covers every pixel exactly once: the guarded double sum
over pass and tid equals the flat sum over the image. -/
lemma tile_sum (B P N : ℕ) (hN : N ≤ P * B) (f : ℕ → ℝ) :
    (∑ pass ∈ Finset.range P, ∑ tid ∈ Finset.range B,
        if pass * B + tid < N then f (pass * B + tid) else 0) =
      ∑ p ∈ Finset.range N, f p := by
  have h1 : ∀ Q : ℕ, (∑ k ∈ Finset.range (Q * B), if k < N then f k else 0) =
      ∑ pass ∈ Finset.range Q, ∑ tid ∈ Finset.range B,
        if pass * B + tid < N then f (pass * B + tid) else 0 := by
    intro Q
    induction Q with
    | zero => simp
    | succ q ih =>
      rw [Nat.succ_mul, sum_range_add_split _ (q * B) B, ih, Finset.sum_range_succ]
  rw [← h1 P]
  have h2 : P * B = N + (P * B - N) := by omega
  rw [h2, sum_range_add_split _ N (P * B - N)]
  have h3 : (∑ j ∈ Finset.range (P * B - N), if N + j < N then f (N + j) else 0) = 0 := by
    apply Finset.sum_eq_zero
    intro j _
    rw [if_neg (by omega)]
  rw [h3, add_zero]
  apply Finset.sum_congr rfl
  intro k hk
  rw [if_pos (Finset.mem_range.mp hk)]

/-- image_size never exceeds pass_num * block_sz. -/
lemma image_size_le_pass_num_mul (block_sz image_size : ℕ) (hb : 0 < block_sz) :
    image_size ≤ pass_num block_sz image_size * block_sz := by
  unfold pass_num
  have hd := Nat.div_add_mod image_size block_sz
  have hm := Nat.mod_lt image_size hb
  by_cases h : image_size % block_sz = 0
  · rw [if_pos h, Nat.mul_comm]
    omega
  · rw [if_neg h, Nat.add_mul, Nat.one_mul, Nat.mul_comm]
    omega

/-- Uniqueness of the base-M digit decomposition. -/
lemma digit_unique {M b bq r rq : ℕ} (hr : r < M) (hrq : rq < M)
    (h : b * M + r = bq * M + rq) : b = bq ∧ r = rq := by
  have hM : 0 < M := by omega
  have h1 : (b * M + r) / M = b := by
    rw [mul_comm b M, Nat.mul_add_div hM, Nat.div_eq_of_lt hr, add_zero]
  have h2 : (bq * M + rq) / M = bq := by
    rw [mul_comm bq M, Nat.mul_add_div hM, Nat.div_eq_of_lt hrq, add_zero]
  have hb : b = bq := by rw [← h1, ← h2, h]
  subst hb
  exact ⟨rfl, by omega⟩

/-- Collapsing a doubly indexed accumulation at a uniquely targeted cell. -/
lemma double_key_collapse (G : ℕ) (num : ℕ → ℕ) (key : ℕ → ℕ → ℕ) (f : ℕ → ℕ → ℝ)
    (c b0 i0 : ℕ) (hb : b0 < G) (hi : i0 < num b0) (hk : key b0 i0 = c)
    (hu : ∀ b < G, ∀ i < num b, key b i = c → b = b0 ∧ i = i0) :
    (∑ b ∈ Finset.range G, ∑ i ∈ Finset.range (num b),
        if c = key b i then f b i else 0) = f b0 i0 := by
  rw [Finset.sum_eq_single_of_mem b0 (Finset.mem_range.mpr hb)]
  · rw [Finset.sum_eq_single_of_mem i0 (Finset.mem_range.mpr hi)]
    · rw [if_pos hk.symm]
    · intro i hi2 hne
      rw [if_neg]
      intro hc
      exact hne ((hu b0 hb i (Finset.mem_range.mp hi2) hc.symm).2)
  · intro b hb2 hne
    apply Finset.sum_eq_zero
    intro i hi2
    rw [if_neg]
    intro hc
    exact hne ((hu b (Finset.mem_range.mp hb2) i (Finset.mem_range.mp hi2) hc.symm).1)

/-- Collapsing the triply indexed coarse accumulation at a uniquely
targeted cell. -/
lemma triple_key_collapse (G E T : ℕ) (key : ℕ → ℕ → ℕ → ℕ) (f : ℕ → ℕ → ℕ → ℝ)
    (c b0 j0 i0 : ℕ) (hb : b0 < G) (hj : j0 < E) (hi : i0 < T) (hk : key b0 j0 i0 = c)
    (hu : ∀ b < G, ∀ j < E, ∀ i < T, key b j i = c → b = b0 ∧ j = j0 ∧ i = i0) :
    (∑ b ∈ Finset.range G, ∑ j ∈ Finset.range E, ∑ i ∈ Finset.range T,
        if c = key b j i then f b j i else 0) = f b0 j0 i0 := by
  rw [Finset.sum_eq_single_of_mem b0 (Finset.mem_range.mpr hb)]
  · rw [Finset.sum_eq_single_of_mem j0 (Finset.mem_range.mpr hj)]
    · rw [Finset.sum_eq_single_of_mem i0 (Finset.mem_range.mpr hi)]
      · rw [if_pos hk.symm]
      · intro i hi2 hne
        rw [if_neg]
        intro hc
        exact hne (hu b0 hb j0 hj i (Finset.mem_range.mp hi2) hc.symm).2.2
    · intro j hj2 hne
      apply Finset.sum_eq_zero
      intro i hi2
      rw [if_neg]
      intro hc
      exact hne (hu b0 hb j (Finset.mem_range.mp hj2) i (Finset.mem_range.mp hi2) hc.symm).2.1
  · intro b hb2 hne
    apply Finset.sum_eq_zero
    intro j hj2
    apply Finset.sum_eq_zero
    intro i hi2
    rw [if_neg]
    intro hc
    exact hne (hu b (Finset.mem_range.mp hb2) j (Finset.mem_range.mp hj2) i
      (Finset.mem_range.mp hi2) hc.symm).1

/-- Uniqueness of the coarse output index decomposition. -/
lemma coarse_key_unique {E T b j i bq jq iq : ℕ} (hj : j < E) (hi : i < T)
    (hjq : jq < E) (hiq : iq < T)
    (h : bq * E * T + jq * T + iq = b * E * T + j * T + i) :
    bq = b ∧ jq = j ∧ iq = i := by
  have hr : j * T + i < E * T := by
    calc j * T + i < j * T + T := by omega
    _ = (j + 1) * T := by ring
    _ ≤ E * T := Nat.mul_le_mul_right T (by omega)
  have hrq : jq * T + iq < E * T := by
    calc jq * T + iq < jq * T + T := by omega
    _ = (jq + 1) * T := by ring
    _ ≤ E * T := Nat.mul_le_mul_right T (by omega)
  have h1 : bq * (E * T) + (jq * T + iq) = b * (E * T) + (j * T + i) := by
    rw [← mul_assoc, ← mul_assoc]
    omega
  obtain ⟨hb, hrest⟩ := digit_unique hrq hr h1
  obtain ⟨hjj, hii⟩ := digit_unique hiq hi hrest
  exact ⟨hb, hjj, hii⟩

/-- A guarded sum over the whole row equals the sum over the sub-interval
when the interval fits in the row. -/
lemma sum_range_ite_Ico (X a b : ℕ) (hb : b ≤ X) (t : ℕ → ℝ) :
    (∑ x ∈ Finset.range X, if x ∈ Finset.Ico a b then t x else 0) =
      ∑ x ∈ Finset.Ico a b, t x := by
  rw [Finset.sum_ite_mem]
  congr 1
  apply Finset.inter_eq_right.mpr
  intro x hx
  rw [Finset.mem_Ico] at hx
  exact Finset.mem_range.mpr (by omega)

/-- The upper x bound of a row never exceeds xSize when maxR < xSize. -/
lemma rowRange_le (Size maxR xSize iy : ℕ) (h : maxR < xSize) :
    (rowRange Size maxR xSize iy).2 ≤ xSize := by
  unfold rowRange
  by_cases hc : (maxR : ℤ) < (iy : ℤ) ∧ (iy : ℤ) < (Size : ℤ) - (maxR : ℤ)
  · rw [if_pos hc]; omega
  · rw [if_neg hc]

/-- The upper x bound of a 3D row never exceeds xSize when maxR < xSize. -/
lemma rowRange3D_le (ySize zSize maxR xSize iz iy : ℕ) (h : maxR < xSize) :
    (rowRange3D ySize zSize maxR xSize iz iy).2 ≤ xSize := by
  unfold rowRange3D
  by_cases hc : (maxR : ℤ) < (iy : ℤ) ∧ (iy : ℤ) < (ySize : ℤ) - (maxR : ℤ)
  · rw [if_pos hc]; omega
  · rw [if_neg hc]; exact rowRange_le zSize maxR xSize iz h

/-- Every coarse output index lands below grid_size*epb*translation_num. -/
lemma coarse_key_lt {G E T b j i : ℕ} (hb : b < G) (hj : j < E) (hi : i < T) :
    b * E * T + j * T + i < G * E * T := by
  have h1 : j * T + i < E * T := by
    calc j * T + i < j * T + T := by omega
    _ = (j + 1) * T := by ring
    _ ≤ E * T := Nat.mul_le_mul_right T (by omega)
  calc b * E * T + j * T + i = b * (E * T) + (j * T + i) := by ring
  _ < b * (E * T) + E * T := by omega
  _ = (b + 1) * (E * T) := by ring
  _ ≤ G * (E * T) := Nat.mul_le_mul_right (E * T) (by omega)
  _ = G * E * T := by ring

/-- C4: every kernel has pure accumulator semantics: running a kernel twice
from output O yields O plus twice the delta the kernel produces from an
all-zero output; the per-call contribution is independent of the prior
output contents. -/
theorem C4_accumulator_semantics :
    (∀ (R D : Bool) (bs epb : ℕ) (A : CoarseIn) (O : ℕ → ℝ) (c : ℕ),
      diff2_coarse R D bs epb A (diff2_coarse R D bs epb A O) c =
        O c + 2 * diff2_coarse R D bs epb A (fun _ => 0) c) ∧
    (∀ (R : Bool) (A : FineIn) (si : ℝ) (O : ℕ → ℝ) (c : ℕ),
      diff2_fine_2D R A si (diff2_fine_2D R A si O) c =
        O c + 2 * diff2_fine_2D R A si (fun _ => 0) c) ∧
    (∀ (A : FineIn) (si : ℝ) (O : ℕ → ℝ) (c : ℕ),
      diff2_fine_3D A si (diff2_fine_3D A si O) c =
        O c + 2 * diff2_fine_3D A si (fun _ => 0) c) ∧
    (∀ (R : Bool) (A : CCCoarseIn) (O : ℕ → ℝ) (c : ℕ),
      diff2_CC_coarse_2D R A (diff2_CC_coarse_2D R A O) c =
        O c + 2 * diff2_CC_coarse_2D R A (fun _ => 0) c) ∧
    (∀ (A : CCCoarseIn) (O : ℕ → ℝ) (c : ℕ),
      diff2_CC_coarse_3D A (diff2_CC_coarse_3D A O) c =
        O c + 2 * diff2_CC_coarse_3D A (fun _ => 0) c) ∧
    (∀ (R : Bool) (A : FineIn) (si xi : ℝ) (O : ℕ → ℝ) (c : ℕ),
      diff2_CC_fine_2D R A si xi (diff2_CC_fine_2D R A si xi O) c =
        O c + 2 * diff2_CC_fine_2D R A si xi (fun _ => 0) c) ∧
    (∀ (A : FineIn) (si xi : ℝ) (O : ℕ → ℝ) (c : ℕ),
      diff2_CC_fine_3D A si xi (diff2_CC_fine_3D A si xi O) c =
        O c + 2 * diff2_CC_fine_3D A si xi (fun _ => 0) c) := by
  refine ⟨?_, ?_, ?_, ?_, ?_, ?_, ?_⟩
  · intro R D bs epb A O c
    simp only [diff2_coarse]
    ring
  · intro R A si O c
    simp only [diff2_fine_2D]
    ring
  · intro A si O c
    simp only [diff2_fine_3D]
    ring
  · intro R A O c
    simp only [diff2_CC_coarse_2D]
    ring
  · intro A O c
    simp only [diff2_CC_coarse_3D]
    ring
  · intro R A si xi O c
    simp only [diff2_CC_fine_2D]
    ring
  · intro A si xi O c
    simp only [diff2_CC_fine_3D]
    ring

/-- C7: the polar-skip rule of the fine kernels: in the band
maxR < iy < Size - maxR the x loop bounds are (maxR, maxR + 1), so only
the single pixel x = maxR contributes to any row accumulation; outside
the band the whole row 0..xSize is visited.  The same rule drives the
z-derived bounds of the 3D kernels. -/
theorem C7_polar_skip (Size zSize maxR xSize iy iz : ℕ) (f : ℕ → ℝ) :
    ((maxR : ℤ) < (iy : ℤ) ∧ (iy : ℤ) < (Size : ℤ) - (maxR : ℤ) →
      rowRange Size maxR xSize iy = (maxR, maxR + 1) ∧
      (∑ x ∈ Finset.Ico (rowRange Size maxR xSize iy).1
          (rowRange Size maxR xSize iy).2, f x) = f maxR) ∧
    (¬((maxR : ℤ) < (iy : ℤ) ∧ (iy : ℤ) < (Size : ℤ) - (maxR : ℤ)) →
      rowRange Size maxR xSize iy = (0, xSize)) ∧
    ((maxR : ℤ) < (iz : ℤ) ∧ (iz : ℤ) < (zSize : ℤ) - (maxR : ℤ) →
      rowRange3D Size zSize maxR xSize iz iy = (maxR, maxR + 1) ∧
      (∑ x ∈ Finset.Ico (rowRange3D Size zSize maxR xSize iz iy).1
          (rowRange3D Size zSize maxR xSize iz iy).2, f x) = f maxR) := by
  refine ⟨?_, ?_, ?_⟩
  · intro h
    have hr : rowRange Size maxR xSize iy = (maxR, maxR + 1) := by
      unfold rowRange
      rw [if_pos h]
    refine ⟨hr, ?_⟩
    rw [hr]
    rw [Nat.Ico_succ_singleton, Finset.sum_singleton]
  · intro h
    unfold rowRange
    rw [if_neg h]
  · intro h
    have hr : rowRange3D Size zSize maxR xSize iz iy = (maxR, maxR + 1) := by
      unfold rowRange3D rowRange
      by_cases hy : (maxR : ℤ) < (iy : ℤ) ∧ (iy : ℤ) < (Size : ℤ) - (maxR : ℤ)
      · rw [if_pos hy]
      · rw [if_neg hy, if_pos h]
    refine ⟨hr, ?_⟩
    rw [hr]
    rw [Nat.Ico_succ_singleton, Finset.sum_singleton]

/-- C9: the linear-index to Fourier-coordinate mapping of diff2_coarse:
row-major decomposition with the y (and for 3D data z) wrap above maxR,
and every pixel p below image_size is covered by tile pass p / block_sz
at tile offset p mod block_sz. -/
theorem C9_coarse_pixel_mapping (xSize ySize zSize maxR block_sz image_size p : ℕ)
    (hb : 0 < block_sz) (hp : p < image_size) :
    (p / block_sz < pass_num block_sz image_size ∧
      p / block_sz * block_sz + p % block_sz = p) ∧
    coarseCoords true xSize ySize zSize maxR p =
      ((((p % (xSize * ySize)) % xSize : ℕ) : ℤ),
       (if maxR < (p % (xSize * ySize)) / xSize then
          (((p % (xSize * ySize)) / xSize : ℕ) : ℤ) - (ySize : ℤ)
        else (((p % (xSize * ySize)) / xSize : ℕ) : ℤ)),
       (if maxR < p / (xSize * ySize) then
          ((p / (xSize * ySize) : ℕ) : ℤ) - (zSize : ℤ)
        else ((p / (xSize * ySize) : ℕ) : ℤ))) ∧
    coarseCoords false xSize ySize zSize maxR p =
      (((p % xSize : ℕ) : ℤ),
       (if maxR < p / xSize then ((p / xSize : ℕ) : ℤ) - (ySize : ℤ)
        else ((p / xSize : ℕ) : ℤ)),
       0) := by
  refine ⟨⟨?_, ?_⟩, ?_, ?_⟩
  · rw [Nat.div_lt_iff_lt_mul hb]
    exact lt_of_lt_of_le hp (image_size_le_pass_num_mul block_sz image_size hb)
  · rw [Nat.mul_comm]
    exact Nat.div_add_mod p block_sz
  · simp only [coarseCoords, if_true, Nat.cast_lt]
  · simp only [coarseCoords, Bool.false_eq_true, if_false, Nat.cast_lt]

/-- Every CC coarse output index lands below grid_size*trans_num. -/
lemma cc_key_lt {G T b i : ℕ} (hb : b < G) (hi : i < T) : b * T + i < G * T := by
  calc b * T + i < b * T + T := by omega
  _ = (b + 1) * T := by ring
  _ ≤ G * T := Nat.mul_le_mul_right T (by omega)

/-- C10: frame property of every kernel: each call changes only the output
cells targeted by its iteration (the coarse kernels: the cells below
grid_size*eulers_per_block*translation_num resp. grid_size*trans_num; the
fine kernels: the cells job_idx[b] + i of their job table), and with
grid_size = 0 every kernel leaves the output array entirely unchanged.
(Inputs are read-only by construction of the embedding, mirroring the
kernels' use of their argument buffers.) -/
theorem C10_frame :
    (∀ (R D : Bool) (bs epb : ℕ) (A : CoarseIn) (O : ℕ → ℝ) (c : ℕ),
      A.grid_size * epb * A.translation_num ≤ c →
        diff2_coarse R D bs epb A O c = O c) ∧
    (∀ (R : Bool) (A : FineIn) (si : ℝ) (O : ℕ → ℝ) (c : ℕ),
      (∀ b < A.grid_size, ∀ i < A.d_job_num b, c ≠ A.d_job_idx b + i) →
        diff2_fine_2D R A si O c = O c) ∧
    (∀ (A : FineIn) (si : ℝ) (O : ℕ → ℝ) (c : ℕ),
      (∀ b < A.grid_size, ∀ i < A.d_job_num b, c ≠ A.d_job_idx b + i) →
        diff2_fine_3D A si O c = O c) ∧
    (∀ (R : Bool) (A : CCCoarseIn) (O : ℕ → ℝ) (c : ℕ),
      A.grid_size * A.trans_num ≤ c →
        diff2_CC_coarse_2D R A O c = O c) ∧
    (∀ (A : CCCoarseIn) (O : ℕ → ℝ) (c : ℕ),
      A.grid_size * A.trans_num ≤ c →
        diff2_CC_coarse_3D A O c = O c) ∧
    (∀ (R : Bool) (A : FineIn) (si xi : ℝ) (O : ℕ → ℝ) (c : ℕ),
      (∀ b < A.grid_size, ∀ i < A.d_job_num b, c ≠ A.d_job_idx b + i) →
        diff2_CC_fine_2D R A si xi O c = O c) ∧
    (∀ (A : FineIn) (si xi : ℝ) (O : ℕ → ℝ) (c : ℕ),
      (∀ b < A.grid_size, ∀ i < A.d_job_num b, c ≠ A.d_job_idx b + i) →
        diff2_CC_fine_3D A si xi O c = O c) ∧
    (∀ (R D : Bool) (bs epb : ℕ) (A : CoarseIn) (O : ℕ → ℝ),
      A.grid_size = 0 → diff2_coarse R D bs epb A O = O) ∧
    (∀ (R : Bool) (A : FineIn) (si : ℝ) (O : ℕ → ℝ),
      A.grid_size = 0 → diff2_fine_2D R A si O = O) ∧
    (∀ (A : FineIn) (si : ℝ) (O : ℕ → ℝ),
      A.grid_size = 0 → diff2_fine_3D A si O = O) ∧
    (∀ (R : Bool) (A : CCCoarseIn) (O : ℕ → ℝ),
      A.grid_size = 0 → diff2_CC_coarse_2D R A O = O) ∧
    (∀ (A : CCCoarseIn) (O : ℕ → ℝ),
      A.grid_size = 0 → diff2_CC_coarse_3D A O = O) ∧
    (∀ (R : Bool) (A : FineIn) (si xi : ℝ) (O : ℕ → ℝ),
      A.grid_size = 0 → diff2_CC_fine_2D R A si xi O = O) ∧
    (∀ (A : FineIn) (si xi : ℝ) (O : ℕ → ℝ),
      A.grid_size = 0 → diff2_CC_fine_3D A si xi O = O) := by
  refine ⟨?_, ?_, ?_, ?_, ?_, ?_, ?_, ?_, ?_, ?_, ?_, ?_, ?_, ?_⟩
  · intro R D bs epb A O c hc
    simp only [diff2_coarse]
    rw [Finset.sum_eq_zero, add_zero]
    intro b hb
    rw [Finset.sum_eq_zero]
    intro j hj
    rw [Finset.sum_eq_zero]
    intro i hi
    rw [if_neg]
    intro hkey
    have := coarse_key_lt (Finset.mem_range.mp hb) (Finset.mem_range.mp hj)
      (Finset.mem_range.mp hi)
    omega
  · intro R A si O c hc
    simp only [diff2_fine_2D]
    rw [Finset.sum_eq_zero, add_zero]
    intro b hb
    rw [Finset.sum_eq_zero]
    intro i hi
    rw [if_neg]
    exact hc b (Finset.mem_range.mp hb) i (Finset.mem_range.mp hi)
  · intro A si O c hc
    simp only [diff2_fine_3D]
    rw [Finset.sum_eq_zero, add_zero]
    intro b hb
    rw [Finset.sum_eq_zero]
    intro i hi
    rw [if_neg]
    exact hc b (Finset.mem_range.mp hb) i (Finset.mem_range.mp hi)
  · intro R A O c hc
    simp only [diff2_CC_coarse_2D]
    rw [Finset.sum_eq_zero, add_zero]
    intro b hb
    rw [Finset.sum_eq_zero]
    intro i hi
    rw [if_neg]
    intro hkey
    have := cc_key_lt (Finset.mem_range.mp hb) (Finset.mem_range.mp hi)
    omega
  · intro A O c hc
    simp only [diff2_CC_coarse_3D]
    rw [Finset.sum_eq_zero, add_zero]
    intro b hb
    rw [Finset.sum_eq_zero]
    intro i hi
    rw [if_neg]
    intro hkey
    have := cc_key_lt (Finset.mem_range.mp hb) (Finset.mem_range.mp hi)
    omega
  · intro R A si xi O c hc
    simp only [diff2_CC_fine_2D]
    rw [Finset.sum_eq_zero, add_zero]
    intro b hb
    rw [Finset.sum_eq_zero]
    intro i hi
    rw [if_neg]
    exact hc b (Finset.mem_range.mp hb) i (Finset.mem_range.mp hi)
  · intro A si xi O c hc
    simp only [diff2_CC_fine_3D]
    rw [Finset.sum_eq_zero, add_zero]
    intro b hb
    rw [Finset.sum_eq_zero]
    intro i hi
    rw [if_neg]
    exact hc b (Finset.mem_range.mp hb) i (Finset.mem_range.mp hi)
  · intro R D bs epb A O h
    funext c
    simp [diff2_coarse, h]
  · intro R A si O h
    funext c
    simp [diff2_fine_2D, h]
  · intro A si O h
    funext c
    simp [diff2_fine_3D, h]
  · intro R A O h
    funext c
    simp [diff2_CC_coarse_2D, h]
  · intro A O h
    funext c
    simp [diff2_CC_coarse_3D, h]
  · intro R A si xi O h
    funext c
    simp [diff2_CC_fine_2D, h]
  · intro A si xi O h
    funext c
    simp [diff2_CC_fine_3D, h]

/-- C8: the shifted signal computed from the sincos tables via sign
folding and the angle-addition identities equals, in exact arithmetic,
the sample (a + b i) multiplied by cos(theta) + i sin(theta) with
theta = 2 pi (tx x / X + ty y / Y (+ tz z / Z)): componentwise
real = a cos - b sin and imag = b cos + a sin.  Stated for the coarse
phase (all axes folded) and for the row-level phase of the fine and CC
kernels (x read directly as a nonnegative index). -/
theorem C8_shift_is_complex_multiplication (tx ty tz a b : ℝ) (X Y Z : ℕ)
    (x y z : ℤ) (xn : ℕ) :
    (applyShift (shiftCC2D tx ty X Y x y) a b =
      (a * Real.cos (2 * Real.pi * (tx * (x : ℝ) / X + ty * (y : ℝ) / Y)) -
        b * Real.sin (2 * Real.pi * (tx * (x : ℝ) / X + ty * (y : ℝ) / Y)),
       b * Real.cos (2 * Real.pi * (tx * (x : ℝ) / X + ty * (y : ℝ) / Y)) +
        a * Real.sin (2 * Real.pi * (tx * (x : ℝ) / X + ty * (y : ℝ) / Y)))) ∧
    (applyShift (shiftCC3D tx ty tz X Y Z x y z) a b =
      (a * Real.cos (2 * Real.pi * (tx * (x : ℝ) / X + ty * (y : ℝ) / Y + tz * (z : ℝ) / Z)) -
        b * Real.sin (2 * Real.pi * (tx * (x : ℝ) / X + ty * (y : ℝ) / Y + tz * (z : ℝ) / Z)),
       b * Real.cos (2 * Real.pi * (tx * (x : ℝ) / X + ty * (y : ℝ) / Y + tz * (z : ℝ) / Z)) +
        a * Real.sin (2 * Real.pi * (tx * (x : ℝ) / X + ty * (y : ℝ) / Y + tz * (z : ℝ) / Z)))) ∧
    (applyShift (rowShift2D tx ty X Y xn y) a b =
      (a * Real.cos (2 * Real.pi * (tx * (xn : ℝ) / X + ty * (y : ℝ) / Y)) -
        b * Real.sin (2 * Real.pi * (tx * (xn : ℝ) / X + ty * (y : ℝ) / Y)),
       b * Real.cos (2 * Real.pi * (tx * (xn : ℝ) / X + ty * (y : ℝ) / Y)) +
        a * Real.sin (2 * Real.pi * (tx * (xn : ℝ) / X + ty * (y : ℝ) / Y)))) ∧
    (applyShift (rowShift3D tx ty tz X Y Z xn y z) a b =
      (a * Real.cos (2 * Real.pi * (tx * (xn : ℝ) / X + ty * (y : ℝ) / Y + tz * (z : ℝ) / Z)) -
        b * Real.sin (2 * Real.pi * (tx * (xn : ℝ) / X + ty * (y : ℝ) / Y + tz * (z : ℝ) / Z)),
       b * Real.cos (2 * Real.pi * (tx * (xn : ℝ) / X + ty * (y : ℝ) / Y + tz * (z : ℝ) / Z)) +
        a * Real.sin (2 * Real.pi * (tx * (xn : ℝ) / X + ty * (y : ℝ) / Y + tz * (z : ℝ) / Z)))) := by
  refine ⟨?_, ?_, ?_, ?_⟩
  · rw [show 2 * Real.pi * (tx * (x : ℝ) / X + ty * (y : ℝ) / Y) =
        2 * Real.pi * tx * (x : ℝ) / X + 2 * Real.pi * ty * (y : ℝ) / Y by ring]
    simp only [applyShift, shiftCC2D, foldSin_eq, foldCos_eq, Real.cos_add, Real.sin_add,
      Prod.mk.injEq]
    constructor <;> ring
  · rw [show 2 * Real.pi * (tx * (x : ℝ) / X + ty * (y : ℝ) / Y + tz * (z : ℝ) / Z) =
        2 * Real.pi * tx * (x : ℝ) / X + 2 * Real.pi * ty * (y : ℝ) / Y +
          2 * Real.pi * tz * (z : ℝ) / Z by ring]
    simp only [applyShift, shiftCC3D, shiftCC2D, foldSin_eq, foldCos_eq, Real.cos_add,
      Real.sin_add, Prod.mk.injEq]
    constructor <;> ring
  · rw [show 2 * Real.pi * (tx * (xn : ℝ) / X + ty * (y : ℝ) / Y) =
        2 * Real.pi * tx * (xn : ℝ) / X + 2 * Real.pi * ty * (y : ℝ) / Y by ring]
    simp only [applyShift, rowShift2D, sinTab, cosTab, foldSin_eq, foldCos_eq, Real.cos_add,
      Real.sin_add, Prod.mk.injEq]
    constructor <;> ring
  · rw [show 2 * Real.pi * (tx * (xn : ℝ) / X + ty * (y : ℝ) / Y + tz * (z : ℝ) / Z) =
        2 * Real.pi * tx * (xn : ℝ) / X + 2 * Real.pi * ty * (y : ℝ) / Y +
          2 * Real.pi * tz * (z : ℝ) / Z by ring]
    simp only [applyShift, rowShift3D, rowShift2D, sinTab, cosTab, foldSin_eq, foldCos_eq,
      Real.cos_add, Real.sin_add, Prod.mk.injEq]
    constructor <;> ring

/-- C5: in both diff2 fine kernels, the caller-provided bias sum_init is
added exactly once to each emitted score: a uniquely targeted output cell
job_idx[bid] + i receives exactly s[i] + sum_init on top of its previous
contents, independent of how many rows or pixels were accumulated. -/
theorem C5_sum_init_added_once :
    (∀ (R : Bool) (A : FineIn) (si : ℝ) (O : ℕ → ℝ) (bid i : ℕ),
      bid < A.grid_size → i < A.d_job_num bid →
      (∀ b < A.grid_size, ∀ iq < A.d_job_num b,
        A.d_job_idx b + iq = A.d_job_idx bid + i → b = bid ∧ iq = i) →
      diff2_fine_2D R A si O (A.d_job_idx bid + i) =
        O (A.d_job_idx bid + i) + fineS2D R A bid i + si) ∧
    (∀ (A : FineIn) (si : ℝ) (O : ℕ → ℝ) (bid i : ℕ),
      bid < A.grid_size → i < A.d_job_num bid →
      (∀ b < A.grid_size, ∀ iq < A.d_job_num b,
        A.d_job_idx b + iq = A.d_job_idx bid + i → b = bid ∧ iq = i) →
      diff2_fine_3D A si O (A.d_job_idx bid + i) =
        O (A.d_job_idx bid + i) + fineS3D A bid i + si) := by
  constructor
  · intro R A si O bid i hb hi hu
    simp only [diff2_fine_2D]
    rw [double_key_collapse A.grid_size A.d_job_num (fun b iq => A.d_job_idx b + iq)
      (fun b iq => fineS2D R A b iq + si) (A.d_job_idx bid + i) bid i hb hi rfl hu]
    ring
  · intro A si O bid i hb hi hu
    simp only [diff2_fine_3D]
    rw [double_key_collapse A.grid_size A.d_job_num (fun b iq => A.d_job_idx b + iq)
      (fun b iq => fineS3D A b iq + si) (A.d_job_idx bid + i) bid i hb hi rfl hu]
    ring

/-- C6: the CC fine kernels add exactly -sum/sqrt(norm) to a uniquely
targeted output cell, and their sum_init and exp_local_sqrtXi2 arguments
have no effect on the result at all. -/
theorem C6_cc_fine_ignores_biases :
    (∀ (R : Bool) (A : FineIn) (s1 x1 s2 x2 : ℝ) (O : ℕ → ℝ),
      diff2_CC_fine_2D R A s1 x1 O = diff2_CC_fine_2D R A s2 x2 O) ∧
    (∀ (A : FineIn) (s1 x1 s2 x2 : ℝ) (O : ℕ → ℝ),
      diff2_CC_fine_3D A s1 x1 O = diff2_CC_fine_3D A s2 x2 O) ∧
    (∀ (R : Bool) (A : FineIn) (si xi : ℝ) (O : ℕ → ℝ) (bid i : ℕ),
      bid < A.grid_size → i < A.d_job_num bid →
      (∀ b < A.grid_size, ∀ iq < A.d_job_num b,
        A.d_job_idx b + iq = A.d_job_idx bid + i → b = bid ∧ iq = i) →
      diff2_CC_fine_2D R A si xi O (A.d_job_idx bid + i) =
        O (A.d_job_idx bid + i) +
          -(ccFineSum2D R A bid i / Real.sqrt (ccFineNorm2D R A bid))) ∧
    (∀ (A : FineIn) (si xi : ℝ) (O : ℕ → ℝ) (bid i : ℕ),
      bid < A.grid_size → i < A.d_job_num bid →
      (∀ b < A.grid_size, ∀ iq < A.d_job_num b,
        A.d_job_idx b + iq = A.d_job_idx bid + i → b = bid ∧ iq = i) →
      diff2_CC_fine_3D A si xi O (A.d_job_idx bid + i) =
        O (A.d_job_idx bid + i) +
          -(ccFineSum3D A bid i / Real.sqrt (ccFineNorm3D A bid))) := by
  refine ⟨?_, ?_, ?_, ?_⟩
  · intro R A s1 x1 s2 x2 O
    rfl
  · intro A s1 x1 s2 x2 O
    rfl
  · intro R A si xi O bid i hb hi hu
    simp only [diff2_CC_fine_2D]
    rw [double_key_collapse A.grid_size A.d_job_num (fun b iq => A.d_job_idx b + iq)
      (fun b iq => -(ccFineSum2D R A b iq / Real.sqrt (ccFineNorm2D R A b)))
      (A.d_job_idx bid + i) bid i hb hi rfl hu]
  · intro A si xi O bid i hb hi hu
    simp only [diff2_CC_fine_3D]
    rw [double_key_collapse A.grid_size A.d_job_num (fun b iq => A.d_job_idx b + iq)
      (fun b iq => -(ccFineSum3D A b iq / Real.sqrt (ccFineNorm3D A b)))
      (A.d_job_idx bid + i) bid i hb hi rfl hu]

/-- The tiled coarse accumulation equals a flat sum over all pixels. -/
lemma coarseDelta_eq_sum (R D : Bool) (bs epb : ℕ) (A : CoarseIn) (block e i : ℕ)
    (hbs : 0 < bs) :
    coarseDelta R D bs epb A block e i =
      ∑ p ∈ Finset.range A.image_size, coarseContrib R D epb A block e i p := by
  unfold coarseDelta coarseDiffi
  exact tile_sum bs (pass_num bs A.image_size) A.image_size
    (image_size_le_pass_num_mul bs A.image_size hbs) _

/-- With a zero translation the shifted signal is the signal itself and the
per-pixel coarse contribution reduces to corr * |ref - sig|^2 * (1/2). -/
lemma coarseContrib_zero_trans (R D : Bool) (epb : ℕ) (A : CoarseIn) (block e i p : ℕ)
    (hx : A.trans_x i = 0) (hy : A.trans_y i = 0) (hz : A.trans_z i = 0) :
    coarseContrib R D epb A block e i p =
      A.g_corr p *
        (((coarseRef R D epb A block e p).1 - A.g_real p) ^ 2 +
         ((coarseRef R D epb A block e p).2 - A.g_imag p) ^ 2) * (1 / 2) := by
  unfold coarseContrib
  rw [hx, hy, hz]
  cases D <;>
    simp only [Bool.false_eq_true, if_false, if_true, shiftCC2D_zero, shiftCC3D_zero,
      applyShift_id] <;>
    ring

/-- C2: with all translations zero, the delta diff2_coarse adds to the
output cell of (block, orientation j, translation i) is exactly half the
sum over all pixels of corr[p] times the squared complex distance between
the projected reference and the signal; the 1/2 enters through the
per-pixel weight only. -/
theorem C2_coarse_zero_translation (R D : Bool) (block_sz epb : ℕ) (A : CoarseIn)
    (O : ℕ → ℝ) (block j i : ℕ) (hbs : 0 < block_sz) (hb : block < A.grid_size)
    (hj : j < epb) (hi : i < A.translation_num)
    (htx : ∀ t < A.translation_num, A.trans_x t = 0)
    (hty : ∀ t < A.translation_num, A.trans_y t = 0)
    (htz : ∀ t < A.translation_num, A.trans_z t = 0) :
    diff2_coarse R D block_sz epb A O
        (block * epb * A.translation_num + j * A.translation_num + i) =
      O (block * epb * A.translation_num + j * A.translation_num + i) +
        (1 / 2) * ∑ p ∈ Finset.range A.image_size,
          A.g_corr p *
            (((coarseRef R D epb A block j p).1 - A.g_real p) ^ 2 +
             ((coarseRef R D epb A block j p).2 - A.g_imag p) ^ 2) := by
  simp only [diff2_coarse]
  rw [triple_key_collapse A.grid_size epb A.translation_num
    (fun b jq iq => b * epb * A.translation_num + jq * A.translation_num + iq)
    (fun b jq iq => coarseDelta R D block_sz epb A b jq iq)
    (block * epb * A.translation_num + j * A.translation_num + i) block j i hb hj hi rfl
    (fun b hbq jq hjq iq hiq hkey => coarse_key_unique hj hi hjq hiq hkey)]
  congr 1
  rw [coarseDelta_eq_sum R D block_sz epb A block j i hbs]
  rw [Finset.sum_congr rfl (fun p _ => coarseContrib_zero_trans R D epb A block j i p
    (htx i hi) (hty i hi) (htz i hi))]
  rw [← Finset.sum_mul, mul_comm]

/-- The bucketed weight reduction of CC coarse 2D equals the flat sum over
the sampled pixels. -/
lemma ccCoarseSumW2D_eq (R : Bool) (A : CCCoarseIn) (iorient itrans : ℕ)
    (h : A.projector.maxR < A.projector.imgX) :
    ccCoarseSumW2D R A iorient itrans =
      ∑ iy ∈ Finset.range A.projector.imgY,
        ∑ x ∈ Finset.Ico (rowRange A.projector.imgY A.projector.maxR A.projector.imgX iy).1
            (rowRange A.projector.imgY A.projector.maxR A.projector.imgX iy).2,
          ccCoarseW2D R A iorient itrans iy x := by
  unfold ccCoarseSumW2D ccCoarseWBucket2D
  rw [Finset.sum_comm]
  exact Finset.sum_congr rfl (fun iy _ =>
    sum_range_ite_Ico _ _ _ (rowRange_le A.projector.imgY A.projector.maxR
      A.projector.imgX iy h) _)

/-- The bucketed norm reduction of CC coarse 2D equals the flat sum over
the sampled pixels. -/
lemma ccCoarseSumN2D_eq (R : Bool) (A : CCCoarseIn) (iorient : ℕ)
    (h : A.projector.maxR < A.projector.imgX) :
    ccCoarseSumN2D R A iorient =
      ∑ iy ∈ Finset.range A.projector.imgY,
        ∑ x ∈ Finset.Ico (rowRange A.projector.imgY A.projector.maxR A.projector.imgX iy).1
            (rowRange A.projector.imgY A.projector.maxR A.projector.imgX iy).2,
          ccCoarseN2D R A iorient iy x := by
  unfold ccCoarseSumN2D ccCoarseNBucket2D
  rw [Finset.sum_comm]
  exact Finset.sum_congr rfl (fun iy _ =>
    sum_range_ite_Ico _ _ _ (rowRange_le A.projector.imgY A.projector.maxR
      A.projector.imgX iy h) _)

/-- The bucketed weight reduction of CC coarse 3D equals the flat sum over
the sampled pixels. -/
lemma ccCoarseSumW3D_eq (A : CCCoarseIn) (iorient itrans : ℕ)
    (h : A.projector.maxR < A.projector.imgX) :
    ccCoarseSumW3D A iorient itrans =
      ∑ iz ∈ Finset.range A.projector.imgZ, ∑ iy ∈ Finset.range A.projector.imgY,
        ∑ x ∈ Finset.Ico
            (rowRange3D A.projector.imgY A.projector.imgZ A.projector.maxR
              A.projector.imgX iz iy).1
            (rowRange3D A.projector.imgY A.projector.imgZ A.projector.maxR
              A.projector.imgX iz iy).2,
          ccCoarseW3D A iorient itrans iz iy x := by
  unfold ccCoarseSumW3D ccCoarseWBucket3D
  rw [Finset.sum_comm]
  refine Finset.sum_congr rfl (fun iz _ => ?_)
  rw [Finset.sum_comm]
  exact Finset.sum_congr rfl (fun iy _ =>
    sum_range_ite_Ico _ _ _ (rowRange3D_le A.projector.imgY A.projector.imgZ
      A.projector.maxR A.projector.imgX iz iy h) _)

/-- The bucketed norm reduction of CC coarse 3D equals the flat sum over
the sampled pixels. -/
lemma ccCoarseSumN3D_eq (A : CCCoarseIn) (iorient : ℕ)
    (h : A.projector.maxR < A.projector.imgX) :
    ccCoarseSumN3D A iorient =
      ∑ iz ∈ Finset.range A.projector.imgZ, ∑ iy ∈ Finset.range A.projector.imgY,
        ∑ x ∈ Finset.Ico
            (rowRange3D A.projector.imgY A.projector.imgZ A.projector.maxR
              A.projector.imgX iz iy).1
            (rowRange3D A.projector.imgY A.projector.imgZ A.projector.maxR
              A.projector.imgX iz iy).2,
          ccCoarseN3D A iorient iz iy x := by
  unfold ccCoarseSumN3D ccCoarseNBucket3D
  rw [Finset.sum_comm]
  refine Finset.sum_congr rfl (fun iz _ => ?_)
  rw [Finset.sum_comm]
  exact Finset.sum_congr rfl (fun iy _ =>
    sum_range_ite_Ico _ _ _ (rowRange3D_le A.projector.imgY A.projector.imgZ
      A.projector.maxR A.projector.imgX iz iy h) _)

/-- C3: the CC coarse kernels add exactly -s_weight/sqrt(s_norm) to the
output cell of (orientation, translation), where s_weight is the sum over
the sampled pixels of (ref.re*shifted.re + ref.im*shifted.im)*corr and
s_norm the sum of (ref.re^2 + ref.im^2)*corr, with no 1/2 scaling
anywhere in the CC path. -/
theorem C3_cc_coarse_emission :
    (∀ (R : Bool) (A : CCCoarseIn) (O : ℕ → ℝ) (iorient itrans : ℕ),
      iorient < A.grid_size → itrans < A.trans_num →
      A.projector.maxR < A.projector.imgX →
      diff2_CC_coarse_2D R A O (iorient * A.trans_num + itrans) =
        O (iorient * A.trans_num + itrans) +
          -((∑ iy ∈ Finset.range A.projector.imgY,
              ∑ x ∈ Finset.Ico
                  (rowRange A.projector.imgY A.projector.maxR A.projector.imgX iy).1
                  (rowRange A.projector.imgY A.projector.maxR A.projector.imgX iy).2,
                ccCoarseW2D R A iorient itrans iy x) /
            Real.sqrt (∑ iy ∈ Finset.range A.projector.imgY,
              ∑ x ∈ Finset.Ico
                  (rowRange A.projector.imgY A.projector.maxR A.projector.imgX iy).1
                  (rowRange A.projector.imgY A.projector.maxR A.projector.imgX iy).2,
                ccCoarseN2D R A iorient iy x))) ∧
    (∀ (A : CCCoarseIn) (O : ℕ → ℝ) (iorient itrans : ℕ),
      iorient < A.grid_size → itrans < A.trans_num →
      A.projector.maxR < A.projector.imgX →
      diff2_CC_coarse_3D A O (iorient * A.trans_num + itrans) =
        O (iorient * A.trans_num + itrans) +
          -((∑ iz ∈ Finset.range A.projector.imgZ, ∑ iy ∈ Finset.range A.projector.imgY,
              ∑ x ∈ Finset.Ico
                  (rowRange3D A.projector.imgY A.projector.imgZ A.projector.maxR
                    A.projector.imgX iz iy).1
                  (rowRange3D A.projector.imgY A.projector.imgZ A.projector.maxR
                    A.projector.imgX iz iy).2,
                ccCoarseW3D A iorient itrans iz iy x) /
            Real.sqrt (∑ iz ∈ Finset.range A.projector.imgZ,
              ∑ iy ∈ Finset.range A.projector.imgY,
              ∑ x ∈ Finset.Ico
                  (rowRange3D A.projector.imgY A.projector.imgZ A.projector.maxR
                    A.projector.imgX iz iy).1
                  (rowRange3D A.projector.imgY A.projector.imgZ A.projector.maxR
                    A.projector.imgX iz iy).2,
                ccCoarseN3D A iorient iz iy x))) := by
  constructor
  · intro R A O iorient itrans hb hi hmx
    simp only [diff2_CC_coarse_2D]
    rw [double_key_collapse A.grid_size (fun _ => A.trans_num)
      (fun b iq => b * A.trans_num + iq)
      (fun b iq => -(ccCoarseSumW2D R A b iq / Real.sqrt (ccCoarseSumN2D R A b)))
      (iorient * A.trans_num + itrans) iorient itrans hb hi rfl
      (fun b hbq iq hiq hkey => digit_unique hiq hi hkey)]
    rw [ccCoarseSumW2D_eq R A iorient itrans hmx, ccCoarseSumN2D_eq R A iorient hmx]
  · intro A O iorient itrans hb hi hmx
    simp only [diff2_CC_coarse_3D]
    rw [double_key_collapse A.grid_size (fun _ => A.trans_num)
      (fun b iq => b * A.trans_num + iq)
      (fun b iq => -(ccCoarseSumW3D A b iq / Real.sqrt (ccCoarseSumN3D A b)))
      (iorient * A.trans_num + itrans) iorient itrans hb hi rfl
      (fun b hbq iq hiq hkey => digit_unique hiq hi hkey)]
    rw [ccCoarseSumW3D_eq A iorient itrans hmx, ccCoarseSumN3D_eq A iorient hmx]

/-- At translation zero the row-level 2D phase is the identity phase. -/
lemma rowShift2D_zero (X Y : ℕ) (x : ℕ) (y : ℤ) : rowShift2D 0 0 X Y x y = (0, 1) := by
  simp [rowShift2D, sinTab, cosTab, foldSin_zero, foldCos_zero]

/-- At translation zero the row-level 3D phase is the identity phase. -/
lemma rowShift3D_zero (X Y Z : ℕ) (x : ℕ) (y z : ℤ) :
    rowShift3D 0 0 0 X Y Z x y z = (0, 1) := by
  simp [rowShift3D, rowShift2D_zero, foldSin_zero, foldCos_zero]

/-- Test projector for the CC fine 3D addressing counterexample: a 1 x 2 x 1
image with maxR = 0 and a constant (1, 0) 3D reference. -/
def P1 : AccProjectorKernel where
  imgX := 1
  imgY := 2
  imgZ := 1
  maxR := 0
  project3Dmodel := fun _ _ _ _ _ _ _ _ _ _ _ _ => (1, 0)
  project3Dmodel2D := fun _ _ _ _ _ _ _ _ => (0, 0)
  project2Dmodel := fun _ _ _ _ _ _ => (0, 0)

/-- Test input for the CC fine 3D addressing counterexample: one job, one
zero translation, unit weights, and a signal that is 1 at linear pixel 1
(row iy = 1) and 0 at pixel 0. -/
def F1 : FineIn where
  grid_size := 1
  g_eulers := fun _ => 0
  g_imgs_real := fun p => if p = 1 then 1 else 0
  g_imgs_imag := fun _ => 0
  g_trans_x := fun _ => 0
  g_trans_y := fun _ => 0
  g_trans_z := fun _ => 0
  projector := P1
  g_corr_img := fun _ => 1
  image_size := 2
  orientation_num := 1
  translation_num := 1
  num_jobs := 1
  d_rot_idx := fun _ => 0
  d_trans_idx := fun _ => 0
  d_job_idx := fun _ => 0
  d_job_num := fun _ => 1

/-- C1: counterexample to the claimed row-by-row pixel addressing of
diff2_CC_fine_3D.  Because the source advances its linear pixel base only
once per z-plane (diff2.h line 1209 lies outside the iy loop), on input F1
the kernel reads the signal of both rows of the plane at base 0 and emits
-(0/sqrt 2) = 0, whereas the claimed addressing (iz*imgY + iy)*imgX, the
one diff2_fine_3D uses, reads the nonzero signal of row iy = 1 and emits
-(1/sqrt 2). -/
theorem C1_cc_fine_3D_plane_addressing_bug :
    diff2_CC_fine_3D F1 0 0 (fun _ => 0) 0 = 0 ∧
    diff2_CC_fine_3D_rowAddressed F1 0 0 (fun _ => 0) 0 = -(1 / Real.sqrt 2) ∧
    diff2_CC_fine_3D F1 0 0 (fun _ => 0) 0 ≠
      diff2_CC_fine_3D_rowAddressed F1 0 0 (fun _ => 0) 0 := by
  have hbug : diff2_CC_fine_3D F1 0 0 (fun _ => 0) 0 = 0 := by
    norm_num [diff2_CC_fine_3D, ccFineSum3D, ccFineNorm3D, ccFineWBucket3D,
      ccFineNBucket3D, ccFineW3D, ccFineN3D, fineRef3D, fineEuler, fineTransX,
      fineTransY, fineTransZ, rowShift3D_zero, applyShift, rowRange3D, rowRange,
      rowFold, F1, P1, Finset.sum_range_succ, Finset.sum_range_one, Finset.mem_Ico]
  have hrow : diff2_CC_fine_3D_rowAddressed F1 0 0 (fun _ => 0) 0 = -(1 / Real.sqrt 2) := by
    norm_num [diff2_CC_fine_3D_rowAddressed, ccFineSum3Drow, ccFineNorm3Drow,
      ccFineW3Drow, ccFineN3Drow, fineRef3D, fineEuler, fineTransX, fineTransY,
      fineTransZ, rowShift3D_zero, applyShift, rowRange3D, rowRange, rowFold, F1, P1,
      Finset.sum_range_succ, Finset.sum_range_one, Finset.mem_Ico]
  have h2 : (0 : ℝ) < Real.sqrt 2 := Real.sqrt_pos.mpr (by norm_num)
  have h3 : -(1 / Real.sqrt 2) < 0 := neg_lt_zero.mpr (div_pos one_pos h2)
  refine ⟨hbug, hrow, ?_⟩
  rw [hbug, hrow]
  exact (ne_of_lt h3).symm

/-- Trivial 1 x 1 x 1 projector used by the witnesses. -/
def P0 : AccProjectorKernel where
  imgX := 1
  imgY := 1
  imgZ := 1
  maxR := 0
  project3Dmodel := fun _ _ _ _ _ _ _ _ _ _ _ _ => (0, 0)
  project3Dmodel2D := fun _ _ _ _ _ _ _ _ => (0, 0)
  project2Dmodel := fun _ _ _ _ _ _ => (0, 0)

/-- Trivial coarse input used by the witnesses: one block, one zero
translation, one pixel. -/
def A0 : CoarseIn where
  grid_size := 1
  g_eulers := fun _ => 0
  trans_x := fun _ => 0
  trans_y := fun _ => 0
  trans_z := fun _ => 0
  g_real := fun _ => 0
  g_imag := fun _ => 0
  projector := P0
  g_corr := fun _ => 1
  translation_num := 1
  image_size := 1

/-- Trivial CC coarse input used by the witnesses. -/
def B0 : CCCoarseIn where
  grid_size := 1
  g_eulers := fun _ => 0
  g_imgs_real := fun _ => 0
  g_imgs_imag := fun _ => 0
  g_trans_x := fun _ => 0
  g_trans_y := fun _ => 0
  g_trans_z := fun _ => 0
  projector := P0
  g_corr_img := fun _ => 1
  trans_num := 1
  image_size := 1
  exp_local_sqrtXi2 := 0

/-- Witness for C2 at the concrete input A0. -/
theorem C2_coarse_zero_translation_witness :
    diff2_coarse false false 1 1 A0 (fun _ => 0)
        (0 * 1 * A0.translation_num + 0 * A0.translation_num + 0) =
      (fun _ : ℕ => (0 : ℝ)) (0 * 1 * A0.translation_num + 0 * A0.translation_num + 0) +
        (1 / 2) * ∑ p ∈ Finset.range A0.image_size,
          A0.g_corr p *
            (((coarseRef false false 1 A0 0 0 p).1 - A0.g_real p) ^ 2 +
             ((coarseRef false false 1 A0 0 0 p).2 - A0.g_imag p) ^ 2) :=
  C2_coarse_zero_translation false false 1 1 A0 (fun _ => 0) 0 0 0 (by decide) (by decide)
    (by decide) (by decide) (fun t _ => rfl) (fun t _ => rfl) (fun t _ => rfl)

/-- Witness for C3 at the concrete input B0. -/
theorem C3_cc_coarse_emission_witness :
    diff2_CC_coarse_2D false B0 (fun _ => 0) (0 * B0.trans_num + 0) =
      (fun _ : ℕ => (0 : ℝ)) (0 * B0.trans_num + 0) +
        -((∑ iy ∈ Finset.range B0.projector.imgY,
            ∑ x ∈ Finset.Ico
                (rowRange B0.projector.imgY B0.projector.maxR B0.projector.imgX iy).1
                (rowRange B0.projector.imgY B0.projector.maxR B0.projector.imgX iy).2,
              ccCoarseW2D false B0 0 0 iy x) /
          Real.sqrt (∑ iy ∈ Finset.range B0.projector.imgY,
            ∑ x ∈ Finset.Ico
                (rowRange B0.projector.imgY B0.projector.maxR B0.projector.imgX iy).1
                (rowRange B0.projector.imgY B0.projector.maxR B0.projector.imgX iy).2,
              ccCoarseN2D false B0 0 iy x)) :=
  C3_cc_coarse_emission.1 false B0 (fun _ => 0) 0 0 (by decide) (by decide) (by decide)

/-- Witness for C5 at the concrete input F1 with bias 7/2. -/
theorem C5_sum_init_added_once_witness :
    diff2_fine_2D false F1 (7 / 2) (fun _ => 0) (F1.d_job_idx 0 + 0) =
      (fun _ : ℕ => (0 : ℝ)) (F1.d_job_idx 0 + 0) + fineS2D false F1 0 0 + 7 / 2 :=
  C5_sum_init_added_once.1 false F1 (7 / 2) (fun _ => 0) 0 0 (by decide) (by decide)
    (by decide)

/-- Witness for C6 at the concrete input F1 with biases 1 and 2. -/
theorem C6_cc_fine_ignores_biases_witness :
    diff2_CC_fine_2D false F1 1 2 (fun _ => 0) (F1.d_job_idx 0 + 0) =
      (fun _ : ℕ => (0 : ℝ)) (F1.d_job_idx 0 + 0) +
        -(ccFineSum2D false F1 0 0 / Real.sqrt (ccFineNorm2D false F1 0)) :=
  C6_cc_fine_ignores_biases.2.2.1 false F1 1 2 (fun _ => 0) 0 0 (by decide) (by decide)
    (by decide)

/-- Witness for C7: row iy = 4 of an 8 x 8 image with maxR = 2 is in the
skip band, as is plane iz = 4 of the 3D variant. -/
theorem C7_polar_skip_witness :
    rowRange 8 2 8 4 = (2, 3) ∧ rowRange3D 8 8 2 8 4 0 = (2, 3) :=
  ⟨((C7_polar_skip 8 8 2 8 4 4 (fun _ => 0)).1 (by decide)).1,
   ((C7_polar_skip 8 8 2 8 0 4 (fun _ => 0)).2.2 (by decide)).1⟩

/-- Witness for C9: pixel 7 of a 4 x 4 image tiled by block_sz = 2 lies in
pass 3. -/
theorem C9_coarse_pixel_mapping_witness : 7 / 2 < pass_num 2 16 :=
  (C9_coarse_pixel_mapping 4 4 1 1 2 16 7 (by decide) (by decide)).1.1

/-- Witness for C10 at concrete untargeted cells of all seven kernels. -/
theorem C10_frame_witness :
    diff2_coarse false false 1 1 A0 (fun _ => (5 : ℝ)) 7 = (fun _ => (5 : ℝ)) 7 ∧
    diff2_fine_2D false F1 0 (fun _ => (4 : ℝ)) 9 = (fun _ => (4 : ℝ)) 9 ∧
    diff2_fine_3D F1 0 (fun _ => (4 : ℝ)) 9 = (fun _ => (4 : ℝ)) 9 ∧
    diff2_CC_coarse_2D false B0 (fun _ => (6 : ℝ)) 7 = (fun _ => (6 : ℝ)) 7 ∧
    diff2_CC_coarse_3D B0 (fun _ => (6 : ℝ)) 7 = (fun _ => (6 : ℝ)) 7 ∧
    diff2_CC_fine_2D false F1 0 0 (fun _ => (3 : ℝ)) 9 = (fun _ => (3 : ℝ)) 9 ∧
    diff2_CC_fine_3D F1 0 0 (fun _ => (3 : ℝ)) 9 = (fun _ => (3 : ℝ)) 9 :=
  ⟨C10_frame.1 false false 1 1 A0 (fun _ => (5 : ℝ)) 7 (by decide),
   C10_frame.2.1 false F1 0 (fun _ => (4 : ℝ)) 9 (by decide),
   C10_frame.2.2.1 F1 0 (fun _ => (4 : ℝ)) 9 (by decide),
   C10_frame.2.2.2.1 false B0 (fun _ => (6 : ℝ)) 7 (by decide),
   C10_frame.2.2.2.2.1 B0 (fun _ => (6 : ℝ)) 7 (by decide),
   C10_frame.2.2.2.2.2.1 false F1 0 0 (fun _ => (3 : ℝ)) 9 (by decide),
   C10_frame.2.2.2.2.2.2.1 F1 0 0 (fun _ => (3 : ℝ)) 9 (by decide)⟩

end

end CpuKernels
